import Mathlib

/-!
# Slack bot: trigger table and draw ledger

A shallow embedding of `src/services/reactionService.js`,
`src/services/omikujiService.js`, `src/services/adminService.js`, the admin
commands and `drawOmikuji` of `src/index.js`, the registration command of
`src/handlers/reactionHandler.js` and the documents of `src/utils/fileUtils.js`.

JavaScript objects used as maps are modelled with their own properties in
`Object.entries` order (array-index keys in ascending numeric order, then the
other keys in creation order) together with the one prototype change the code
can cause (`obj["__proto__"] = value`).  The outcome of the file write and the
current day key are inputs of the operations that use them.
-/

namespace SlackBot

/-! ## Strings -/

/-- Whether `p` is an initial segment of `l`. -/
def startsWithChars : List Char → List Char → Bool
  | _, [] => true
  | [], _ :: _ => false
  | c :: l, d :: p => c == d && startsWithChars l p

/-- Whether `p` occurs as a contiguous segment of `l`. -/
def includesChars : List Char → List Char → Bool
  | [], p => p.isEmpty
  | c :: l, p => startsWithChars (c :: l) p || includesChars l p

/-- The method `String.prototype.includes`: `messageText.includes(trigger)`.
Strings are sequences of Unicode characters; on well-formed strings the test
on characters and the test on UTF-16 code units agree. -/
def includes (messageText trigger : String) : Bool :=
  includesChars messageText.data trigger.data

/-! ## Property keys -/

/-- Value of a decimal digit character. -/
def digitValue (c : Char) : Option Nat :=
  if 48 ≤ c.toNat ∧ c.toNat ≤ 57 then some (c.toNat - 48) else none

/-- Reads a run of decimal digits, most significant first, onto `acc`. -/
def readDigits : List Char → Nat → Option Nat
  | [], acc => some acc
  | c :: cs, acc =>
    match digitValue c with
    | some d => readDigits cs (10 * acc + d)
    | none => none

/-- The array index a property key denotes, if any: the key is the canonical
decimal form (no leading zero) of an integer from 0 to 2^32 - 2. -/
def arrayIndex? (key : String) : Option Nat :=
  match key.data with
  | [] => none
  | c :: cs =>
    if c = '0' ∧ cs ≠ [] then none
    else
      match readDigits (c :: cs) 0 with
      | some n => if n < 4294967295 then some n else none
      | none => none

/-- Names of the properties every ordinary object inherits from
`Object.prototype`. -/
def objectPrototypeKeys : List String :=
  ["constructor", "__defineGetter__", "__defineSetter__", "hasOwnProperty",
   "__lookupGetter__", "__lookupSetter__", "isPrototypeOf",
   "propertyIsEnumerable", "toString", "valueOf", "__proto__",
   "toLocaleString"]

/-! ## Own properties in `Object.entries` order -/

/-- Own properties of an object, listed in `Object.entries` order. -/
abbrev Props (α : Type) := List (String × α)

/-- Own property lookup. -/
def getOwn {α : Type} (ps : Props α) (key : String) : Option α :=
  (ps.find? (fun p => p.1 == key)).map Prod.snd

/-- Whether the object has an own property `key`. -/
def hasOwn {α : Type} (ps : Props α) (key : String) : Bool :=
  ps.any (fun p => p.1 == key)

/-- Overwrites the value of the existing own property `key`, in place. -/
def updateOwn {α : Type} (ps : Props α) (key : String) (v : α) : Props α :=
  ps.map (fun p => if p.1 == key then (p.1, v) else p)

/-- Places a new array-index property after the smaller indices and before
everything else. -/
def insertIndexed {α : Type} (n : Nat) (key : String) (v : α) : Props α → Props α
  | [] => [(key, v)]
  | p :: ps =>
    match arrayIndex? p.1 with
    | some m => if m < n then p :: insertIndexed n key v ps else (key, v) :: p :: ps
    | none => (key, v) :: p :: ps

/-- Defines or overwrites the own data property `key`. An existing property
keeps its position; a new array index is placed among the indices; any other
new key goes last. -/
def setOwn {α : Type} (ps : Props α) (key : String) (v : α) : Props α :=
  if hasOwn ps key then updateOwn ps key v
  else
    match arrayIndex? key with
    | some n => insertIndexed n key v ps
    | none => ps ++ [(key, v)]

/-- The operator `delete obj[key]` on own properties. -/
def deleteOwn {α : Type} (ps : Props α) (key : String) : Props α :=
  ps.filter (fun p => !(p.1 == key))

/-! ## Trigger table (`reactionService.js`) -/

/-- The two mode tokens, `Object.values(MATCH_TYPES)`. -/
def MATCH_TYPES : List String := ["部分", "完全"]

/-- The token `MATCH_TYPES.PARTIAL`. -/
def PARTIAL : String := "部分"

/-- The token `MATCH_TYPES.EXACT`. -/
def EXACT : String := "完全"

/-- The value stored under a trigger: `{ response, matchType }`. -/
structure ReactionConfig where
  response : String
  matchType : String
deriving DecidableEq, Repr

/-- One channel's object `this.reactions[channelId]`: its own properties, and
its prototype when an assignment to `__proto__` has replaced `Object.prototype`
(by the assigned `{ response, matchType }` object). -/
structure ChannelTable where
  own : Props ReactionConfig
  proto : Option ReactionConfig
deriving DecidableEq, Repr

/-- The object literal `{}`. -/
def emptyTable : ChannelTable := ⟨[], none⟩

/-- Identifiers issued by the chat platform (channel and user ids). They are
never names of `Object.prototype` members, so a lookup by one of them sees own
properties only. -/
abbrev PlatformId := { s : String // s ∉ objectPrototypeKeys }

/-- The field `this.reactions`, keyed by channel id. -/
abbrev Reactions := Props ChannelTable

/-- Ways in which an operation of the service rejects. -/
inductive ServiceError where
  | invalidMatchType
  | saveFailed
deriving DecidableEq, Repr

instance instDecidableEqOutcome {β : Type} [DecidableEq β] :
    DecidableEq (Except ServiceError β) := fun a b =>
  match a, b with
  | .ok x, .ok y => if h : x = y then isTrue (by rw [h]) else isFalse (fun e => h (by cases e; rfl))
  | .error x, .error y =>
    if h : x = y then isTrue (by rw [h]) else isFalse (fun e => h (by cases e; rfl))
  | .ok _, .error _ => isFalse (fun e => by cases e)
  | .error _, .ok _ => isFalse (fun e => by cases e)

/-- Truthiness of `table[trigger]`: an own entry is an object; otherwise the
prototype chain answers (the properties of a prototype installed through
`__proto__`, then the members of `Object.prototype`). -/
def truthyAt (table : ChannelTable) (trigger : String) : Bool :=
  if hasOwn table.own trigger then true
  else
    match table.proto with
    | some cfg =>
      if trigger == "response" then cfg.response != ""
      else if trigger == "matchType" then cfg.matchType != ""
      else objectPrototypeKeys.contains trigger
    | none => objectPrototypeKeys.contains trigger

/-- Whether `trigger` names a property that `table` inherits. -/
def inheritsKey (table : ChannelTable) (trigger : String) : Bool :=
  (table.proto.isSome && (trigger == "response" || trigger == "matchType")) ||
    objectPrototypeKeys.contains trigger

/-- The test `trigger in table`. -/
def inTable (table : ChannelTable) (trigger : String) : Bool :=
  hasOwn table.own trigger || inheritsKey table trigger

/-- The assignment `table[trigger] = cfg`. An own property is overwritten in
place. Otherwise the key `__proto__` reaches the inherited setter, which makes
`cfg` the prototype and creates no property; any other key becomes a new own
property. -/
def assignAt (table : ChannelTable) (trigger : String) (cfg : ReactionConfig) :
    ChannelTable :=
  if !hasOwn table.own trigger && trigger == "__proto__" then
    { table with proto := some cfg }
  else
    { table with own := setOwn table.own trigger cfg }

/-- The method `saveReactions`, whose write either succeeds or rejects. -/
def saveReactions (saveOk : Bool) : Except ServiceError Unit :=
  if saveOk then .ok () else .error .saveFailed

/-- The method `addReaction`: the table afterwards and the outcome of the call.
The channel's object is the one already held, or a new `{}`; the assignment to
`this.reactions[channelId][trigger]` mutates it in place, which is written as
one update of the property `channelId`. The write of the file comes last. -/
def addReaction (saveOk : Bool) (reactions : Reactions) (channelId : PlatformId)
    (trigger response matchType : String) : Reactions × Except ServiceError Unit :=
  if !MATCH_TYPES.contains matchType then (reactions, .error .invalidMatchType)
  else
    let table := (getOwn reactions channelId.1).getD emptyTable
    let reactions1 := setOwn reactions channelId.1 (assignAt table trigger ⟨response, matchType⟩)
    (reactions1, saveReactions saveOk)

/-- The method `removeReaction`: the table afterwards and the outcome. The
entry is deleted and an emptied channel pruned before the file is written. -/
def removeReaction (saveOk : Bool) (reactions : Reactions) (channelId : PlatformId)
    (trigger : String) : Reactions × Except ServiceError Bool :=
  match getOwn reactions channelId.1 with
  | none => (reactions, .ok false)
  | some table =>
    if !truthyAt table trigger then (reactions, .ok false)
    else
      let table1 : ChannelTable := { table with own := deleteOwn table.own trigger }
      let reactions1 :=
        if table1.own.length == 0 then deleteOwn reactions channelId.1
        else setOwn reactions channelId.1 table1
      (reactions1,
        match saveReactions saveOk with
        | .ok _ => .ok true
        | .error e => .error e)

/-- The first exact match of `getReaction`. -/
def exactMatch (table : ChannelTable) (messageText : String) :
    Option (String × ReactionConfig) :=
  table.own.find? (fun p => p.2.matchType == EXACT && p.1 == messageText)

/-- The first partial match of `getReaction`. -/
def partialMatch (table : ChannelTable) (messageText : String) :
    Option (String × ReactionConfig) :=
  table.own.find? (fun p => p.2.matchType == PARTIAL && includes messageText p.1)

/-- The method `getReaction`; `none` is `null`. -/
def getReaction (reactions : Reactions) (channelId : PlatformId) (messageText : String) :
    Option String :=
  match getOwn reactions channelId.1 with
  | none => none
  | some table =>
    match exactMatch table messageText with
    | some e => some e.2.response
    | none =>
      match partialMatch table messageText with
      | some e => some e.2.response
      | none => none

/-- One element of the result of `getAllReactions`. -/
structure ReactionInfo where
  trigger : String
  response : String
  matchType : String
deriving DecidableEq, Repr

/-- The method `getAllReactions`. -/
def getAllReactions (reactions : Reactions) (channelId : PlatformId) : List ReactionInfo :=
  match getOwn reactions channelId.1 with
  | none => []
  | some table => table.own.map (fun p => ⟨p.1, p.2.response, p.2.matchType⟩)

/-- The method `hasReaction`, as the truthiness of its result. -/
def hasReaction (reactions : Reactions) (channelId : PlatformId) (trigger : String) : Bool :=
  match getOwn reactions channelId.1 with
  | none => false
  | some table => inTable table trigger

/-! ## Draw ledger (`omikujiService.js`) -/

/-- A user's entry `{ date, fortune, time }`. -/
structure UserDraw where
  date : String
  fortune : String
  time : String
deriving DecidableEq, Repr

/-- A log line `{ date, time, userId, fortune }`. -/
structure DrawLog where
  date : String
  time : String
  userId : String
  fortune : String
deriving DecidableEq, Repr

/-- A channel's record `{ date, users, logs }`. -/
structure ChannelHistory where
  date : String
  users : Props UserDraw
  logs : List DrawLog
deriving DecidableEq, Repr

/-- The field `this.history`, keyed by channel id. -/
abbrev History := Props ChannelHistory

/-- The method `saveHistory`, whose write either succeeds or rejects. -/
def saveHistory (saveOk : Bool) : Except ServiceError Unit :=
  if saveOk then .ok () else .error .saveFailed

/-- The method `hasDrawnToday`; `today` is the value of `getTodayKey()`. -/
def hasDrawnToday (today : String) (history : History) (channelId userId : PlatformId) :
    Bool :=
  match getOwn history channelId.1 with
  | none => false
  | some record =>
    match getOwn record.users userId.1 with
    | none => false
    | some entry => entry.date == today

/-- The method `recordOmikuji`; `today` and `timeStr` are the values of
`getTodayKey()` and `getTimeString()`. A record is created only when the
channel has none; the write of the file comes last. -/
def recordOmikuji (saveOk : Bool) (today timeStr : String) (history : History)
    (channelId userId : PlatformId) (fortune : String) :
    History × Except ServiceError Unit :=
  let record : ChannelHistory :=
    match getOwn history channelId.1 with
    | some r => r
    | none => { date := today, users := [], logs := [] }
  let record1 : ChannelHistory :=
    { record with users := setOwn record.users userId.1 ⟨today, fortune, timeStr⟩ }
  let record2 : ChannelHistory :=
    { record1 with logs := record1.logs ++ [⟨today, timeStr, userId.1, fortune⟩] }
  (setOwn history channelId.1 record2, saveHistory saveOk)

/-- The method `getChannelHistory`. -/
def getChannelHistory (today : String) (history : History) (channelId : PlatformId) :
    List DrawLog :=
  match getOwn history channelId.1 with
  | none => []
  | some record => if record.date != today then [] else record.logs

/-! ## Registration order -/

/-- A request made to one channel's trigger table. -/
inductive TableOp where
  | register (trigger response matchType : String)
  | unregister (trigger : String)
deriving DecidableEq, Repr

/-- The effect of a request on `this.reactions`, the file being written. -/
def applyOp (channelId : PlatformId) (reactions : Reactions) : TableOp → Reactions
  | .register trigger response matchType =>
    (addReaction true reactions channelId trigger response matchType).1
  | .unregister trigger => (removeReaction true reactions channelId trigger).1

/-- The table reached from the empty one by a sequence of requests. -/
def runOps (channelId : PlatformId) (ops : List TableOp) : Reactions :=
  ops.foldl (applyOp channelId) []

/-- The entries of a channel, as `Object.entries(this.reactions[channelId])`
lists them (none when the channel has no table). -/
def entriesOf (reactions : Reactions) (channelId : PlatformId) : Props ReactionConfig :=
  match getOwn reactions channelId.1 with
  | none => []
  | some table => table.own

/-- Insertion into an order-preserving map, following the specification: an
existing key keeps its position, a new key goes last. -/
def orderedUpsert {α : Type} (ps : Props α) (key : String) (v : α) : Props α :=
  if hasOwn ps key then updateOwn ps key v else ps ++ [(key, v)]

/-- The effect of a request on the order-preserving map of the specification. -/
def registerStep (ps : Props ReactionConfig) : TableOp → Props ReactionConfig
  | .register trigger response matchType =>
    if MATCH_TYPES.contains matchType then orderedUpsert ps trigger ⟨response, matchType⟩
    else ps
  | .unregister trigger => deleteOwn ps trigger

/-- The registered entries in registration (insertion) order, following the
specification. -/
def registrationOrder (ops : List TableOp) : Props ReactionConfig :=
  ops.foldl registerStep []

/-- The first entry, in a given order, that is in Partial mode and whose
trigger is a substring of the message; its response. -/
def firstPartial (ps : Props ReactionConfig) (messageText : String) : Option String :=
  (ps.find? (fun p => p.2.matchType == PARTIAL && includes messageText p.1)).map
    (fun p => p.2.response)

/-- The numeric value of an array-index key (0 for other keys). -/
def keyIndex {α : Type} (p : String × α) : Nat := (arrayIndex? p.1).getD 0

/-- Whether the key of a property is an array index. -/
def isIndexKey {α : Type} (p : String × α) : Bool := (arrayIndex? p.1).isSome

/-- Insertion into a list that is ascending by index. -/
def insertSorted {α : Type} (a : String × α) : Props α → Props α
  | [] => [a]
  | b :: l => if keyIndex a ≤ keyIndex b then a :: b :: l else b :: insertSorted a l

/-- Sorts properties by ascending index. -/
def sortByIndex {α : Type} (ps : Props α) : Props α :=
  ps.foldl (fun acc a => insertSorted a acc) []

/-- The order in which `Object.entries` lists properties created in the order
`ps`: the array-index keys in ascending numeric order, then the other keys in
creation order. -/
def entriesOrder {α : Type} (ps : Props α) : Props α :=
  sortByIndex (ps.filter isIndexKey) ++ ps.filter (fun p => !isIndexKey p)

/-- Ascending by index. -/
def Ascending {α : Type} (l : Props α) : Prop :=
  l.Pairwise (fun a b => keyIndex a ≤ keyIndex b)

/-- Registering `b` and then `1`, both in Partial mode. -/
def opsBThenOne : List TableOp :=
  [.register "b" "R1" PARTIAL, .register "1" "R2" PARTIAL]

/-- Registering `b`, then `a`, then `b` again with another response, all in
Partial mode. -/
def opsReRegister : List TableOp :=
  [.register "b" "R1" PARTIAL, .register "a" "R2" PARTIAL, .register "b" "R3" PARTIAL]

/-! ## Sample states -/

/-- A channel id. -/
def channelC1 : PlatformId := ⟨"C1", by decide⟩

/-- The table after registering `ab` (Partial, `R1`) and then `abc`
(Exact, `R2`) in channel `C1`. -/
def abThenAbc : Reactions :=
  (addReaction true (addReaction true [] channelC1 "ab" "R1" PARTIAL).1
    channelC1 "abc" "R2" EXACT).1

/-- The table after registering `ping` (Partial, `pong`) in channel `C1`. -/
def pingTable : Reactions :=
  (addReaction true [] channelC1 "ping" "pong" PARTIAL).1

/-- A user id. -/
def userU1 : PlatformId := ⟨"U1", by decide⟩

/-- Another user id. -/
def userU2 : PlatformId := ⟨"U2", by decide⟩

/-- The ledger after user `U1` drew `吉！` in channel `C1` on day `2026-11-3`,
starting from the empty ledger. -/
def ledgerDayThree : History :=
  (recordOmikuji true "2026-11-3" "10:00:00" [] channelC1 userU1 "吉！").1

/-- The ledger after, on the next day `2026-11-4`, user `U2` drew `大吉！！！`
in the same channel. -/
def ledgerDayFour : History :=
  (recordOmikuji true "2026-11-4" "09:30:00" ledgerDayThree channelC1 userU2 "大吉！！！").1

/-! ## Fortune draw (`drawOmikuji`, in `omikujiService.js` and `index.js`) -/

/-- An element `{ result, probability }` of the table `fortunes`. -/
structure Fortune where
  result : String
  probability : Nat
deriving DecidableEq, Repr

/-- The table `fortunes` of `drawOmikuji`. -/
def fortunes : List Fortune :=
  [⟨":自爆:自爆:自爆:", 5⟩, ⟨"大吉！！！", 10⟩, ⟨"吉！", 30⟩, ⟨"中吉！！", 20⟩,
   ⟨"小吉", 15⟩, ⟨"末吉", 10⟩, ⟨"凶", 8⟩, ⟨"大凶", 2⟩]

/-- The loop of `drawOmikuji` over the rest of the table, `cumulative` being
the sum so far; `none` when the loop ends without returning. -/
def cumulativeWalk : List Fortune → Nat → Nat → Option String
  | [], _, _ => none
  | fortune :: rest, cumulative, rand =>
    if rand ≤ cumulative + fortune.probability then some fortune.result
    else cumulativeWalk rest (cumulative + fortune.probability) rand

/-- The function `drawOmikuji`, `rand` being the integer drawn by
`Math.floor(Math.random() * 100) + 1`; after the loop the result is `吉！`. -/
def drawOmikuji (rand : Nat) : String :=
  match cumulativeWalk fortunes 0 rand with
  | some result => result
  | none => "吉！"

/-! ## Admin registry (`adminService.js` and the admin commands of `index.js`) -/

/-- The constant `FIXED_ADMIN` of `adminService.js`. -/
def FIXED_ADMIN : String := "U08UCCC0W4Q"

/-- A `Set` of user ids: its members in insertion order, without repetition. -/
abbrev AdminSet := List String

/-- The method `Set.prototype.add`. -/
def setAdd (admins : AdminSet) (userId : String) : AdminSet :=
  if admins.contains userId then admins else admins ++ [userId]

/-- The method `Set.prototype.delete`. -/
def setDelete (admins : AdminSet) (userId : String) : AdminSet :=
  admins.filter (fun u => !(u == userId))

/-- A value found under a channel key of the admins document: `null`, the empty
object (what `JSON.stringify` writes for a `Set`), an array of user ids (the
shape the specification gives to the document), or any other JSON value
(boolean, number, string, non-empty object), of which only the truthiness
matters here. -/
inductive AdminJson where
  | null
  | emptyObject
  | idArray (ids : List String)
  | other (truthy : Bool)
deriving DecidableEq, Repr

/-- A value of `channelAdmins[channelId]`: a `Set`, as `initializeChannel`
creates it, or a parsed value that `loadAdminUsers` stored as it was read. -/
inductive AdminValue where
  | set (members : AdminSet)
  | parsed (json : AdminJson)
deriving DecidableEq, Repr

/-- The variable `channelAdmins` of `adminService.js`, keyed by channel id. -/
abbrev ChannelAdmins := Props AdminValue

/-- Errors thrown while an admin function or command runs. -/
inductive AdminError where
  | typeError
  | referenceError
deriving DecidableEq, Repr

instance instDecidableEqAdminOutcome {β : Type} [DecidableEq β] :
    DecidableEq (Except AdminError β) := fun a b =>
  match a, b with
  | .ok x, .ok y => if h : x = y then isTrue (by rw [h]) else isFalse (fun e => h (by cases e; rfl))
  | .error x, .error y =>
    if h : x = y then isTrue (by rw [h]) else isFalse (fun e => h (by cases e; rfl))
  | .ok _, .error _ => isFalse (fun e => by cases e)
  | .error _, .ok _ => isFalse (fun e => by cases e)

/-- Truthiness of a value of `channelAdmins[channelId]`. -/
def truthyValue : AdminValue → Bool
  | .parsed .null => false
  | .parsed (.other truthy) => truthy
  | _ => true

/-- The function `isAdmin` of `adminService.js`. In
`channelAdmins[channelId]?.has(userId) || false` the optional chain stops at a
missing or `null` value; a `Set` answers `has`; on any other value `has` is not
a function and the call throws `TypeError`. -/
def adminServiceIsAdmin (channelAdmins : ChannelAdmins) (channelId : PlatformId)
    (userId : String) : Except AdminError Bool :=
  if userId == FIXED_ADMIN then .ok true
  else
    match getOwn channelAdmins channelId.1 with
    | none => .ok false
    | some (.set members) => .ok (members.contains userId)
    | some (.parsed .null) => .ok false
    | some (.parsed _) => .error .typeError

/-- The function `isAdmin` of `index.js`, which tests `adminService.FIXED_ADMIN`
and then asks `adminService.isAdmin`. -/
def isAdmin (channelAdmins : ChannelAdmins) (channelId : PlatformId) (userId : String) :
    Except AdminError Bool :=
  if userId == FIXED_ADMIN then .ok true
  else adminServiceIsAdmin channelAdmins channelId userId

/-- The function `initializeChannel`. -/
def initializeChannel (channelAdmins : ChannelAdmins) (channelId : PlatformId) :
    ChannelAdmins :=
  match getOwn channelAdmins channelId.1 with
  | some value =>
    if truthyValue value then channelAdmins else setOwn channelAdmins channelId.1 (.set [])
  | none => setOwn channelAdmins channelId.1 (.set [])

/-- The reply with which an admin command ends; `genericError` is the reply of
its `catch` block. -/
inductive AdminReply where
  | adminOnly
  | fixedAdminProtected
  | fixedAdminNotAddable
  | userNotFound
  | alreadyAdmin
  | notAdmin
  | added
  | removed
  | genericError
deriving DecidableEq, Repr

/-- Reading, in `index.js`, one of the names `FIXED_ADMIN`, `channelAdmins` and
`saveAdminUsers`: `index.js` declares none of them (it only has
`adminService.FIXED_ADMIN`), so the read throws `ReferenceError`. -/
def readUndeclared (_name : String) : Except AdminError String := .error .referenceError

/-- The command `管理者削除` (remove admin) of `index.js`, for a message of
`requester` in `channelId` naming `targetUserId`: the registry afterwards and
the reply. After the permission test the listener compares `targetUserId` with
the undeclared `FIXED_ADMIN`; whatever throws inside the `try` block is caught
and answered with the generic error. -/
def handleRemoveAdmin (channelAdmins : ChannelAdmins) (channelId : PlatformId)
    (requester targetUserId : String) : ChannelAdmins × AdminReply :=
  match isAdmin channelAdmins channelId requester with
  | .error _ => (channelAdmins, .genericError)
  | .ok false => (channelAdmins, .adminOnly)
  | .ok true =>
    match readUndeclared "FIXED_ADMIN" with
    | .error _ => (channelAdmins, .genericError)
    | .ok fixedAdmin =>
      if targetUserId == fixedAdmin then (channelAdmins, .fixedAdminProtected)
      else
        match readUndeclared "channelAdmins" with
        | .error _ => (initializeChannel channelAdmins channelId, .genericError)
        | .ok _ => (initializeChannel channelAdmins channelId, .notAdmin)

/-- The command `管理者追加` (add admin) of `index.js`; `userExists` tells whether
`app.client.users.info` resolves for `targetUserId`. Same course as
`handleRemoveAdmin`. -/
def handleAddAdmin (userExists : Bool) (channelAdmins : ChannelAdmins)
    (channelId : PlatformId) (requester targetUserId : String) :
    ChannelAdmins × AdminReply :=
  match isAdmin channelAdmins channelId requester with
  | .error _ => (channelAdmins, .genericError)
  | .ok false => (channelAdmins, .adminOnly)
  | .ok true =>
    match readUndeclared "FIXED_ADMIN" with
    | .error _ => (channelAdmins, .genericError)
    | .ok fixedAdmin =>
      if targetUserId == fixedAdmin then (channelAdmins, .fixedAdminNotAddable)
      else if !userExists then (channelAdmins, .userNotFound)
      else
        match readUndeclared "channelAdmins" with
        | .error _ => (initializeChannel channelAdmins channelId, .genericError)
        | .ok _ => (initializeChannel channelAdmins channelId, .alreadyAdmin)

/-- No channel of the registry maps to an empty `Set`. -/
def NoEmptySet (channelAdmins : ChannelAdmins) : Prop :=
  ∀ p ∈ channelAdmins, p.2 ≠ AdminValue.set []

/-- Every channel key of the trigger table holds at least one entry. -/
def EveryChannelHasEntry (reactions : Reactions) : Prop :=
  ∀ (key : String) (table : ChannelTable), getOwn reactions key = some table → table.own ≠ []

/-- Another channel id. -/
def channelC2 : PlatformId := ⟨"C2", by decide⟩

/-! ## Registration command (`reactionHandler.js`) -/

/-- Code points that `String.prototype.trim` removes (white space and line
terminators). -/
def isTrimmed (c : Char) : Bool :=
  let n := c.toNat
  n == 0x09 || n == 0x0A || n == 0x0B || n == 0x0C || n == 0x0D || n == 0x20 ||
    n == 0xA0 || n == 0x1680 || (0x2000 ≤ n && n ≤ 0x200A) || n == 0x2028 ||
    n == 0x2029 || n == 0x202F || n == 0x205F || n == 0x3000 || n == 0xFEFF

/-- The method `String.prototype.trim`. -/
def jsTrim (s : String) : String :=
  ⟨((s.data.dropWhile isTrimmed).reverse.dropWhile isTrimmed).reverse⟩

/-- The capture groups in `context.matches`: three for the pattern with a match
type, `trigger(matchType)/response`, two for the pattern `trigger/response`. -/
inductive RegisterMatch where
  | withType (trigger matchType response : String)
  | withoutType (trigger response : String)
deriving DecidableEq, Repr

/-- The branch in which `handleReactionRegister` ends. -/
inductive RegisterReply where
  | skipped
  | registered
  | invalidMatchType
  | failed
deriving DecidableEq, Repr

/-- The function `handleReactionRegister`; `alreadyProcessed` is the result of
`isMessageProcessed(message.ts)`. -/
def handleReactionRegister (alreadyProcessed saveOk : Bool) (reactions : Reactions)
    (channelId : PlatformId) (matched : RegisterMatch) : Reactions × RegisterReply :=
  if alreadyProcessed then (reactions, .skipped)
  else
    let fields : String × String × String :=
      match matched with
      | .withType trigger matchType response =>
        (jsTrim trigger, jsTrim matchType, jsTrim response)
      | .withoutType trigger response => (jsTrim trigger, "完全", jsTrim response)
    match addReaction saveOk reactions channelId fields.1 fields.2.2 fields.2.1 with
    | (reactions1, .ok _) => (reactions1, .registered)
    | (reactions1, .error .invalidMatchType) => (reactions1, .invalidMatchType)
    | (reactions1, .error .saveFailed) => (reactions1, .failed)

/-! ## Saved documents (`fileUtils.js` and the load and save functions)

A document is the tree that `JSON.stringify` writes and `JSON.parse` reads
back; the text between the two is not modelled. -/

/-- The object that `JSON.parse` builds from the members of a JSON object: one
own property per member, defined in the order of the text. -/
def parseObject {α : Type} (members : Props α) : Props α :=
  members.foldl (fun acc p => setOwn acc p.1 p.2) []

/-- The keys of an object are pairwise distinct. -/
def UniqueKeys {α : Type} (ps : Props α) : Prop := (ps.map Prod.fst).Nodup

/-- The value of `channels` in the document written by `saveReactions`:
`JSON.stringify` writes the own properties of each object and nothing of its
prototype. -/
def reactionsDocument (reactions : Reactions) : Props (Props ReactionConfig) :=
  reactions.map (fun p => (p.1, p.2.own))

/-- The method `loadReactions`: `this.reactions` after reading the document
(`none` when the file is missing, for which `loadJsonFile` returns `null`). -/
def loadReactions (document : Option (Props (Props ReactionConfig))) : Reactions :=
  match document with
  | none => []
  | some channels => parseObject (channels.map (fun p => (p.1, ⟨parseObject p.2, none⟩)))

/-- What `JSON.stringify` writes for a value of `channelAdmins`: a `Set` has no
own enumerable property and is written as the empty object; a parsed value is
written as it was read. -/
def stringifyAdminValue : AdminValue → AdminJson
  | .set _ => .emptyObject
  | .parsed json => json

/-- The value of `channels` in the document written by `saveAdminUsers`. -/
def adminsDocument (channelAdmins : ChannelAdmins) : Props AdminJson :=
  channelAdmins.map (fun p => (p.1, stringifyAdminValue p.2))

/-- The function `loadAdminUsers`: `channelAdmins` after reading the document
(`none` when the file is missing); the parsed values are stored as they are,
no `Set` is built from them. -/
def loadAdminUsers (document : Option (Props AdminJson)) : ChannelAdmins :=
  match document with
  | none => []
  | some channels => parseObject (channels.map (fun p => (p.1, AdminValue.parsed p.2)))

/-- The value of `channels` in the document written by `saveHistory`: records,
user entries and log lines are plain objects, arrays and strings. -/
def historyDocument (history : History) : History := history

/-- The effect of `cleanupOldHistory` on one channel's record: `none` when the
record is deleted. -/
def cleanupRecord (today : String) (record : ChannelHistory) : Option ChannelHistory :=
  if record.date != today then none
  else
    some { record with
      users := record.users.filter (fun u => u.2.date == today)
      logs := record.logs.filter (fun log => log.date == today) }

/-- The method `cleanupOldHistory`, `today` being `getTodayKey()`. -/
def cleanupOldHistory (today : String) (history : History) : History :=
  history.filterMap (fun p => (cleanupRecord today p.2).map (fun r => (p.1, r)))

/-- The record that `JSON.parse` builds from a record of the document. -/
def parseRecord (record : ChannelHistory) : ChannelHistory :=
  { record with users := parseObject record.users }

/-- The method `loadHistory`: `this.history` after reading the document and
cleaning it up. -/
def loadHistory (today : String) (document : Option History) : History :=
  match document with
  | none => []
  | some channels =>
    cleanupOldHistory today (parseObject (channels.map (fun p => (p.1, parseRecord p.2))))

/-- The ledger after user `U1` drew `吉！` in channel `C1` on day `2026-11-5`,
starting from the empty ledger. -/
def ledgerDayFive : History :=
  (recordOmikuji true "2026-11-5" "10:00:00" [] channelC1 userU1 "吉！").1

/-- The ledger after, with the clock showing `2026-11-4`, user `U2` drew
`大吉！！！` in the same channel. -/
def ledgerDayFiveThenFour : History :=
  (recordOmikuji true "2026-11-4" "09:30:00" ledgerDayFive channelC1 userU2 "大吉！！！").1

/-! ## Own-property lemmas -/

section PropsLemmas

variable {α : Type}

theorem getOwn_nil (key : String) : getOwn ([] : Props α) key = none := rfl

theorem getOwn_cons (p : String × α) (ps : Props α) (key : String) :
    getOwn (p :: ps) key = if p.1 = key then some p.2 else getOwn ps key := by
  unfold getOwn
  by_cases h : p.1 = key <;> simp [List.find?_cons, h]

theorem hasOwn_cons (p : String × α) (ps : Props α) (key : String) :
    hasOwn (p :: ps) key = (decide (p.1 = key) || hasOwn ps key) := by
  by_cases h : p.1 = key <;> simp [hasOwn, h]

theorem updateOwn_cons (p : String × α) (ps : Props α) (key : String) (v : α) :
    updateOwn (p :: ps) key v =
      (if p.1 = key then (p.1, v) else p) :: updateOwn ps key v := by
  by_cases h : p.1 = key <;> simp [updateOwn, h]

theorem deleteOwn_cons (p : String × α) (ps : Props α) (key : String) :
    deleteOwn (p :: ps) key = if p.1 = key then deleteOwn ps key else p :: deleteOwn ps key := by
  by_cases h : p.1 = key <;> simp [deleteOwn, List.filter_cons, h]

theorem hasOwn_eq_isSome (ps : Props α) (key : String) :
    hasOwn ps key = (getOwn ps key).isSome := by
  induction ps with
  | nil => rfl
  | cons p ps ih =>
    rw [hasOwn_cons, getOwn_cons, ih]
    by_cases h : p.1 = key <;> simp [h]

theorem hasOwn_false_iff (ps : Props α) (key : String) :
    hasOwn ps key = false ↔ getOwn ps key = none := by
  rw [hasOwn_eq_isSome]
  cases getOwn ps key <;> simp

theorem hasOwn_iff_mem_keys (ps : Props α) (key : String) :
    hasOwn ps key = true ↔ key ∈ ps.map Prod.fst := by
  induction ps with
  | nil => simp [hasOwn]
  | cons p ps ih =>
    rw [hasOwn_cons]
    simp only [Bool.or_eq_true, decide_eq_true_eq, ih, List.map_cons, List.mem_cons]
    constructor
    · rintro (h | h)
      · exact Or.inl h.symm
      · exact Or.inr h
    · rintro (h | h)
      · exact Or.inl h.symm
      · exact Or.inr h

theorem getOwn_mem {ps : Props α} {key : String} {v : α} (h : getOwn ps key = some v) :
    (key, v) ∈ ps := by
  induction ps with
  | nil => simp [getOwn_nil] at h
  | cons p ps ih =>
    rw [getOwn_cons] at h
    by_cases hk : p.1 = key
    · simp only [hk, if_true, Option.some.injEq] at h
      have : p = (key, v) := Prod.ext hk h
      simp [this]
    · simp only [hk, if_false] at h
      exact List.mem_cons_of_mem _ (ih h)

theorem getOwn_updateOwn_same (ps : Props α) (key : String) (v : α)
    (h : hasOwn ps key = true) : getOwn (updateOwn ps key v) key = some v := by
  induction ps with
  | nil => simp [hasOwn] at h
  | cons p ps ih =>
    rw [hasOwn_cons] at h
    by_cases hk : p.1 = key
    · simp [updateOwn_cons, getOwn_cons, hk]
    · have h2 : hasOwn ps key = true := by simpa [hk] using h
      simp [updateOwn_cons, getOwn_cons, hk, ih h2]

theorem getOwn_updateOwn_other (ps : Props α) (key key2 : String) (v : α)
    (h : key2 ≠ key) : getOwn (updateOwn ps key v) key2 = getOwn ps key2 := by
  induction ps with
  | nil => rfl
  | cons p ps ih =>
    by_cases hk : p.1 = key
    · have hk2 : ¬ key = key2 := fun e => h e.symm
      have hk3 : ¬ p.1 = key2 := fun e => h (e.symm.trans hk)
      simp [updateOwn_cons, getOwn_cons, hk, hk2, hk3, ih]
    · by_cases hk3 : p.1 = key2
      · simp [updateOwn_cons, getOwn_cons, hk, hk3, ih, h]
      · simp [updateOwn_cons, getOwn_cons, hk, hk3, ih]

theorem getOwn_insertIndexed_same (n : Nat) (ps : Props α) (key : String) (v : α)
    (h : hasOwn ps key = false) : getOwn (insertIndexed n key v ps) key = some v := by
  induction ps with
  | nil => simp [insertIndexed, getOwn_cons]
  | cons p ps ih =>
    rw [hasOwn_cons] at h
    have hk : ¬ p.1 = key := by
      intro e
      simp [e] at h
    have h2 : hasOwn ps key = false := by simpa [hk] using h
    unfold insertIndexed
    cases arrayIndex? p.1 with
    | none => simp [getOwn_cons]
    | some m =>
      by_cases hm : m < n
      · simp [hm, getOwn_cons, hk, ih h2]
      · simp [hm, getOwn_cons]

theorem getOwn_insertIndexed_other (n : Nat) (ps : Props α) (key key2 : String) (v : α)
    (h : key2 ≠ key) : getOwn (insertIndexed n key v ps) key2 = getOwn ps key2 := by
  have hne : ¬ key = key2 := fun e => h e.symm
  induction ps with
  | nil => simp [insertIndexed, getOwn_cons, getOwn_nil, hne]
  | cons p ps ih =>
    unfold insertIndexed
    cases arrayIndex? p.1 with
    | none => simp [getOwn_cons, hne]
    | some m =>
      by_cases hm : m < n
      · simp [hm, getOwn_cons, ih]
      · simp [hm, getOwn_cons, hne]

theorem getOwn_append_single (ps : Props α) (key key2 : String) (v : α) :
    getOwn (ps ++ [(key, v)]) key2 =
      match getOwn ps key2 with
      | some w => some w
      | none => if key = key2 then some v else none := by
  induction ps with
  | nil => simp [getOwn_cons, getOwn_nil]
  | cons p ps ih =>
    rw [List.cons_append, getOwn_cons, getOwn_cons, ih]
    by_cases hk : p.1 = key2 <;> simp [hk]

theorem getOwn_setOwn_same (ps : Props α) (key : String) (v : α) :
    getOwn (setOwn ps key v) key = some v := by
  unfold setOwn
  by_cases h : hasOwn ps key = true
  · simp [h, getOwn_updateOwn_same ps key v h]
  · have h2 : hasOwn ps key = false := by simpa using h
    simp only [h2, Bool.false_eq_true, if_false]
    cases arrayIndex? key with
    | some n => exact getOwn_insertIndexed_same n ps key v h2
    | none =>
      rw [getOwn_append_single, (hasOwn_false_iff ps key).1 h2]
      simp

theorem getOwn_setOwn_other (ps : Props α) (key key2 : String) (v : α)
    (h : key2 ≠ key) : getOwn (setOwn ps key v) key2 = getOwn ps key2 := by
  unfold setOwn
  by_cases h1 : hasOwn ps key = true
  · simp [h1, getOwn_updateOwn_other ps key key2 v h]
  · have h2 : hasOwn ps key = false := by simpa using h1
    simp only [h2, Bool.false_eq_true, if_false]
    cases arrayIndex? key with
    | some n => exact getOwn_insertIndexed_other n ps key key2 v h
    | none =>
      rw [getOwn_append_single]
      have hne : ¬ key = key2 := fun e => h e.symm
      cases getOwn ps key2 <;> simp [hne]

theorem getOwn_deleteOwn_same (ps : Props α) (key : String) :
    getOwn (deleteOwn ps key) key = none := by
  induction ps with
  | nil => rfl
  | cons p ps ih =>
    by_cases hk : p.1 = key
    · simp [deleteOwn_cons, hk, ih]
    · simp [deleteOwn_cons, hk, getOwn_cons, ih]

theorem getOwn_deleteOwn_other (ps : Props α) (key key2 : String) (h : key2 ≠ key) :
    getOwn (deleteOwn ps key) key2 = getOwn ps key2 := by
  induction ps with
  | nil => rfl
  | cons p ps ih =>
    by_cases hk : p.1 = key
    · have hk2 : ¬ key = key2 := fun e => h e.symm
      simp [deleteOwn_cons, hk, getOwn_cons, hk2, ih]
    · simp [deleteOwn_cons, hk, getOwn_cons, ih]

end PropsLemmas

/-! ## Substring test -/

theorem startsWithChars_iff (l p : List Char) :
    startsWithChars l p = true ↔ List.IsPrefix p l := by
  induction l generalizing p with
  | nil =>
    cases p with
    | nil => simp [startsWithChars]
    | cons d p => simp [startsWithChars]
  | cons c l ih =>
    cases p with
    | nil => simp [startsWithChars]
    | cons d p =>
      simp only [startsWithChars, Bool.and_eq_true, beq_iff_eq, ih, List.cons_prefix_cons]
      constructor
      · rintro ⟨h1, h2⟩
        exact ⟨h1.symm, h2⟩
      · rintro ⟨h1, h2⟩
        exact ⟨h1.symm, h2⟩

theorem includesChars_iff (l p : List Char) :
    includesChars l p = true ↔ List.IsInfix p l := by
  induction l with
  | nil =>
    cases p with
    | nil => simp [includesChars]
    | cons d p => simp [includesChars]
  | cons c l ih =>
    simp only [includesChars, Bool.or_eq_true, startsWithChars_iff, ih]
    exact (List.infix_cons_iff).symm

/-- The test `messageText.includes(trigger)` holds exactly when the characters
of `trigger` occur contiguously in `messageText`. -/
theorem includes_iff (messageText trigger : String) :
    includes messageText trigger = true ↔ List.IsInfix trigger.data messageText.data :=
  includesChars_iff _ _

/-! ## Resolution (`getReaction`) -/

theorem exactMatch_of_getOwn (ps : Props ReactionConfig) (m : String) (cfg : ReactionConfig)
    (he : getOwn ps m = some cfg) (hm : cfg.matchType = EXACT) :
    ps.find? (fun p => p.2.matchType == EXACT && p.1 == m) = some (m, cfg) := by
  induction ps with
  | nil => simp [getOwn_nil] at he
  | cons p ps ih =>
    rw [getOwn_cons] at he
    by_cases hk : p.1 = m
    · simp only [hk, if_true, Option.some.injEq] at he
      have hp : p = (m, cfg) := Prod.ext hk he
      subst hp
      simp [List.find?_cons, hm]
    · simp only [hk, if_false] at he
      simp [List.find?_cons, hk, ih he]

theorem exactMatch_none_iff (table : ChannelTable) (m : String) :
    exactMatch table m = none ↔
      ∀ p ∈ table.own, ¬ (p.2.matchType = EXACT ∧ p.1 = m) := by
  simp [exactMatch, List.find?_eq_none]

theorem partialMatch_none_iff (table : ChannelTable) (m : String) :
    partialMatch table m = none ↔
      ∀ p ∈ table.own, ¬ (p.2.matchType = PARTIAL ∧ List.IsInfix p.1.data m.data) := by
  simp [partialMatch, List.find?_eq_none, includes_iff]

theorem exactMatch_some {table : ChannelTable} {m : String} {e : String × ReactionConfig}
    (h : exactMatch table m = some e) :
    e ∈ table.own ∧ e.2.matchType = EXACT ∧ e.1 = m := by
  have h1 := List.find?_some h
  have h2 := List.mem_of_find?_eq_some h
  simp only [Bool.and_eq_true, beq_iff_eq] at h1
  exact ⟨h2, h1.1, h1.2⟩

theorem partialMatch_some {table : ChannelTable} {m : String} {e : String × ReactionConfig}
    (h : partialMatch table m = some e) :
    e ∈ table.own ∧ e.2.matchType = PARTIAL ∧ List.IsInfix e.1.data m.data := by
  have h1 := List.find?_some h
  have h2 := List.mem_of_find?_eq_some h
  simp only [Bool.and_eq_true, beq_iff_eq, includes_iff] at h1
  exact ⟨h2, h1.1, h1.2⟩

theorem getReaction_absent {reactions : Reactions} {channelId : PlatformId}
    (hc : getOwn reactions channelId.1 = none) (m : String) :
    getReaction reactions channelId m = none := by
  unfold getReaction
  rw [hc]

theorem getReaction_exact {reactions : Reactions} {channelId : PlatformId}
    {table : ChannelTable} {m : String} {e : String × ReactionConfig}
    (hc : getOwn reactions channelId.1 = some table) (hx : exactMatch table m = some e) :
    getReaction reactions channelId m = some e.2.response := by
  unfold getReaction
  rw [hc]
  simp only [hx]

theorem getReaction_second_pass {reactions : Reactions} {channelId : PlatformId}
    {table : ChannelTable} {m : String}
    (hc : getOwn reactions channelId.1 = some table) (hx : exactMatch table m = none) :
    getReaction reactions channelId m = (partialMatch table m).map (fun e => e.2.response) := by
  unfold getReaction
  rw [hc]
  simp only [hx]
  cases partialMatch table m <;> rfl

/-- C1. Exact before partial: when the channel's table holds, under the key
equal to the message text, an entry in Exact mode, `getReaction` returns that
entry's response, whatever else the table holds and in whatever order. -/
theorem getReaction_exact_first (reactions : Reactions) (channelId : PlatformId)
    (messageText : String) (table : ChannelTable) (cfg : ReactionConfig)
    (hc : getOwn reactions channelId.1 = some table)
    (he : getOwn table.own messageText = some cfg)
    (hm : cfg.matchType = EXACT) :
    getReaction reactions channelId messageText = some cfg.response := by
  unfold getReaction
  rw [hc]
  simp only [exactMatch, exactMatch_of_getOwn table.own messageText cfg he hm]

/-- Witness for `getReaction_exact_first`: with `ab` registered Partial and then
`abc` registered Exact, the message `abc` resolves to `R2`. -/
theorem getReaction_exact_first_witness :
    getOwn abThenAbc channelC1.1 =
        some ⟨[("ab", ⟨"R1", PARTIAL⟩), ("abc", ⟨"R2", EXACT⟩)], none⟩ ∧
      getOwn [("ab", (⟨"R1", PARTIAL⟩ : ReactionConfig)), ("abc", ⟨"R2", EXACT⟩)] "abc" =
        some ⟨"R2", EXACT⟩ ∧
      getReaction abThenAbc channelC1 "abc" = some "R2" :=
  ⟨by decide, by decide,
    getReaction_exact_first abThenAbc channelC1 "abc"
      ⟨[("ab", ⟨"R1", PARTIAL⟩), ("abc", ⟨"R2", EXACT⟩)], none⟩ ⟨"R2", EXACT⟩
      (by decide) (by decide) rfl⟩

theorem getReaction_sound_complete (reactions : Reactions) (channelId : PlatformId)
    (messageText : String) :
    (getReaction reactions channelId messageText = none ↔
      ∀ table, getOwn reactions channelId.1 = some table →
        ∀ p ∈ table.own,
          ¬ (p.2.matchType = EXACT ∧ p.1 = messageText) ∧
          ¬ (p.2.matchType = PARTIAL ∧ List.IsInfix p.1.data messageText.data)) ∧
    (∀ r, getReaction reactions channelId messageText = some r →
      ∃ table p, getOwn reactions channelId.1 = some table ∧ p ∈ table.own ∧
        p.2.response = r ∧
        ((p.2.matchType = EXACT ∧ p.1 = messageText) ∨
          (p.2.matchType = PARTIAL ∧ List.IsInfix p.1.data messageText.data))) := by
  cases hc : getOwn reactions channelId.1 with
  | none => simp [getReaction_absent hc]
  | some table =>
    cases hx : exactMatch table messageText with
    | some e =>
      obtain ⟨h1, h2, h3⟩ := exactMatch_some hx
      rw [getReaction_exact hc hx]
      constructor
      · simp only [reduceCtorEq, Option.some.injEq, false_iff, not_forall]
        exact ⟨table, rfl, e, h1, fun h => h.1 ⟨h2, h3⟩⟩
      · intro r hr
        simp only [Option.some.injEq] at hr
        exact ⟨table, e, rfl, h1, hr, Or.inl ⟨h2, h3⟩⟩
    | none =>
      have hxn := (exactMatch_none_iff table messageText).1 hx
      rw [getReaction_second_pass hc hx]
      cases hp : partialMatch table messageText with
      | some e =>
        obtain ⟨h1, h2, h3⟩ := partialMatch_some hp
        constructor
        · simp only [Option.map_some', reduceCtorEq, Option.some.injEq, false_iff, not_forall]
          exact ⟨table, rfl, e, h1, fun h => h.2 ⟨h2, h3⟩⟩
        · intro r hr
          simp only [Option.map_some', Option.some.injEq] at hr
          exact ⟨table, e, rfl, h1, hr, Or.inr ⟨h2, h3⟩⟩
      | none =>
        have hpn := (partialMatch_none_iff table messageText).1 hp
        constructor
        · simp only [Option.map_none', Option.some.injEq, true_iff]
          intro t ht p hmem
          subst ht
          exact ⟨hxn p hmem, hpn p hmem⟩
        · intro r hr
          simp at hr

/-- Scenario of the specification: `こんにちは` registered in Exact mode answers
the identical message and not a longer one that contains it. -/
theorem scenario_exact_no_substring :
    getReaction (addReaction true [] channelC1 "こんにちは" "やあ！" EXACT).1 channelC1
        "こんにちは" = some "やあ！" ∧
      getReaction (addReaction true [] channelC1 "こんにちは" "やあ！" EXACT).1 channelC1
        "こんにちは、元気？" = none := by
  refine ⟨by decide, by decide⟩

/-- Scenario of the specification: `ping` registered in Partial mode answers
`pingping`. -/
theorem scenario_partial_substring :
    getReaction pingTable channelC1 "pingping" = some "pong" := by
  decide

/-- C5. `getReaction` returns `null` exactly when the channel holds neither an
Exact entry whose trigger equals the message nor a Partial entry whose trigger
is a substring of it; and every response it returns is that of such an entry,
so an Exact entry never answers a message that only contains its trigger. -/
theorem getReaction_none_iff (reactions : Reactions) (channelId : PlatformId)
    (messageText : String) :
    (getReaction reactions channelId messageText = none ↔
      ∀ table, getOwn reactions channelId.1 = some table →
        ∀ p ∈ table.own,
          ¬ (p.2.matchType = EXACT ∧ p.1 = messageText) ∧
          ¬ (p.2.matchType = PARTIAL ∧ List.IsInfix p.1.data messageText.data)) ∧
    (∀ r, getReaction reactions channelId messageText = some r →
      ∃ table p, getOwn reactions channelId.1 = some table ∧ p ∈ table.own ∧
        p.2.response = r ∧
        ((p.2.matchType = EXACT ∧ p.1 = messageText) ∨
          (p.2.matchType = PARTIAL ∧ List.IsInfix p.1.data messageText.data))) :=
  getReaction_sound_complete reactions channelId messageText

/-! ## Registration (`addReaction`) -/

theorem contains_EXACT : MATCH_TYPES.contains EXACT = true := by decide

theorem contains_PARTIAL : MATCH_TYPES.contains PARTIAL = true := by decide

theorem contains_iff (matchType : String) :
    MATCH_TYPES.contains matchType = true ↔ matchType = PARTIAL ∨ matchType = EXACT := by
  simp [MATCH_TYPES, PARTIAL, EXACT]

theorem addReaction_fst_of_valid (saveOk : Bool) (reactions : Reactions)
    (channelId : PlatformId) (trigger response matchType : String)
    (h : MATCH_TYPES.contains matchType = true) :
    (addReaction saveOk reactions channelId trigger response matchType).1 =
      setOwn reactions channelId.1
        (assignAt ((getOwn reactions channelId.1).getD emptyTable) trigger
          ⟨response, matchType⟩) := by
  unfold addReaction
  rw [h]
  rfl

theorem getOwn_assignAt_same (table : ChannelTable) (trigger : String) (cfg : ReactionConfig)
    (h : trigger ≠ "__proto__" ∨ hasOwn table.own trigger = true) :
    getOwn (assignAt table trigger cfg).own trigger = some cfg := by
  unfold assignAt
  rcases h with h | h
  · simp [h, getOwn_setOwn_same]
  · simp [h, getOwn_setOwn_same]

/-- Registration in Exact mode makes the trigger resolve to the new response,
for every trigger other than `__proto__` (and for `__proto__` too when the
table already has it as an own key). -/
theorem getReaction_addReaction_exact (saveOk : Bool) (reactions : Reactions)
    (channelId : PlatformId) (trigger response : String)
    (h : trigger ≠ "__proto__" ∨
      ∃ table, getOwn reactions channelId.1 = some table ∧ hasOwn table.own trigger = true) :
    getReaction (addReaction saveOk reactions channelId trigger response EXACT).1
      channelId trigger = some response := by
  rw [addReaction_fst_of_valid _ _ _ _ _ _ contains_EXACT]
  have hown : getOwn (assignAt ((getOwn reactions channelId.1).getD emptyTable) trigger
      ⟨response, EXACT⟩).own trigger = some ⟨response, EXACT⟩ := by
    apply getOwn_assignAt_same
    rcases h with h | ⟨table, h1, h2⟩
    · exact Or.inl h
    · right
      rw [h1]
      exact h2
  exact getReaction_exact (getOwn_setOwn_same _ _ _)
    (exactMatch_of_getOwn _ _ _ hown rfl)

/-- C2 (failing input). Registering the trigger `__proto__` in Exact mode in an
empty table succeeds, yet the table holds no entry for it afterwards and
`getReaction` on `__proto__` returns `null`. -/
theorem addReaction_proto_key_lost :
    (addReaction true [] channelC1 "__proto__" "R" EXACT).2 = .ok () ∧
      getAllReactions (addReaction true [] channelC1 "__proto__" "R" EXACT).1 channelC1 = [] ∧
      getReaction (addReaction true [] channelC1 "__proto__" "R" EXACT).1
        channelC1 "__proto__" = none := by
  refine ⟨rfl, by decide, by decide⟩

/-! ## Removal (`removeReaction`) -/

theorem getOwn_none_iff {α : Type} (ps : Props α) (key : String) :
    getOwn ps key = none ↔ ∀ p ∈ ps, p.1 ≠ key := by
  induction ps with
  | nil => simp [getOwn_nil]
  | cons p ps ih =>
    rw [getOwn_cons]
    by_cases hk : p.1 = key <;> simp [hk, ih]

theorem mem_deleteOwn {α : Type} {ps : Props α} {key : String} {p : String × α}
    (h : p ∈ deleteOwn ps key) : p ∈ ps := by
  unfold deleteOwn at h
  exact (List.mem_filter.1 h).1

theorem truthyAt_false_of (table : ChannelTable) (trigger : String)
    (h1 : hasOwn table.own trigger = false) (h2 : inheritsKey table trigger = false) :
    truthyAt table trigger = false := by
  unfold inheritsKey at h2
  unfold truthyAt
  rw [h1]
  simp only [Bool.or_eq_false_iff, Bool.and_eq_false_iff] at h2
  obtain ⟨h3, h4⟩ := h2
  cases hp : table.proto with
  | none => simpa using h4
  | some cfg =>
    rw [hp] at h3
    simp only [Option.isSome_some, Bool.true_eq_false, false_or, Bool.or_eq_false_iff] at h3
    simp only [h3.1, h3.2, Bool.false_eq_true, if_false]
    exact h4

theorem truthyAt_of_hasOwn (table : ChannelTable) (trigger : String)
    (h : hasOwn table.own trigger = true) : truthyAt table trigger = true := by
  simp [truthyAt, h]

theorem hasOwn_of_truthyAt_false (table : ChannelTable) (trigger : String)
    (h : truthyAt table trigger = false) : hasOwn table.own trigger = false := by
  by_contra hc
  have : hasOwn table.own trigger = true := by simpa using hc
  rw [truthyAt_of_hasOwn table trigger this] at h
  exact Bool.noConfusion h

theorem removeReaction_absent (saveOk : Bool) {reactions : Reactions} {channelId : PlatformId}
    (trigger : String) (hc : getOwn reactions channelId.1 = none) :
    removeReaction saveOk reactions channelId trigger = (reactions, .ok false) := by
  unfold removeReaction
  rw [hc]

theorem removeReaction_falsy (saveOk : Bool) {reactions : Reactions} {channelId : PlatformId}
    {table : ChannelTable} {trigger : String} (hc : getOwn reactions channelId.1 = some table)
    (ht : truthyAt table trigger = false) :
    removeReaction saveOk reactions channelId trigger = (reactions, .ok false) := by
  unfold removeReaction
  rw [hc]
  simp [ht]

theorem removeReaction_truthy (saveOk : Bool) {reactions : Reactions} {channelId : PlatformId}
    {table : ChannelTable} {trigger : String} (hc : getOwn reactions channelId.1 = some table)
    (ht : truthyAt table trigger = true) :
    removeReaction saveOk reactions channelId trigger =
      (if (deleteOwn table.own trigger).length == 0 then deleteOwn reactions channelId.1
        else setOwn reactions channelId.1 { table with own := deleteOwn table.own trigger },
       match saveReactions saveOk with
       | .ok _ => .ok true
       | .error e => .error e) := by
  unfold removeReaction
  rw [hc]
  simp [ht]

/-- After `removeReaction`, whatever its outcome, a table still held for the
channel has no own entry for the trigger; it has the prototype and only
entries of the table held before. -/
theorem removeReaction_table_after (saveOk : Bool) (reactions : Reactions)
    (channelId : PlatformId) (trigger : String) (table1 : ChannelTable)
    (h : getOwn (removeReaction saveOk reactions channelId trigger).1 channelId.1 = some table1) :
    getOwn table1.own trigger = none ∧
      ∃ table, getOwn reactions channelId.1 = some table ∧ table1.proto = table.proto ∧
        ∀ p ∈ table1.own, p ∈ table.own := by
  cases hc : getOwn reactions channelId.1 with
  | none =>
    rw [removeReaction_absent saveOk trigger hc] at h
    rw [hc] at h
    exact Option.noConfusion h
  | some table =>
    by_cases ht : truthyAt table trigger = true
    · rw [removeReaction_truthy saveOk hc ht] at h
      by_cases hl : ((deleteOwn table.own trigger).length == 0) = true
      · rw [if_pos hl] at h
        rw [getOwn_deleteOwn_same] at h
        exact Option.noConfusion h
      · rw [if_neg hl] at h
        rw [getOwn_setOwn_same] at h
        simp only [Option.some.injEq] at h
        subst h
        exact ⟨getOwn_deleteOwn_same _ _, table, rfl, rfl, fun p hp => mem_deleteOwn hp⟩
    · have ht2 : truthyAt table trigger = false := by simpa using ht
      rw [removeReaction_falsy saveOk hc ht2] at h
      rw [hc] at h
      simp only [Option.some.injEq] at h
      subst h
      exact ⟨(hasOwn_false_iff _ _).1 (hasOwn_of_truthyAt_false _ _ ht2), table, rfl, rfl,
        fun p hp => hp⟩

/-- C3 (counterexample). With `ab` registered Partial and `abc` registered
Exact, removing `abc` succeeds and `getReaction` on `abc` then returns `R1`,
the response of `ab`, not `null`. -/
theorem removeReaction_then_partial_answers :
    (removeReaction true abThenAbc channelC1 "abc").2 = .ok true ∧
      getReaction (removeReaction true abThenAbc channelC1 "abc").1 channelC1 "abc" =
        some "R1" ∧
      getReaction (removeReaction true abThenAbc channelC1 "abc").1 channelC1 "abc" ≠
        none := by
  refine ⟨by decide, by decide, by decide⟩

/-- After `removeReaction(C, T)`, whatever its outcome, the channel holds no
entry for `T`; `getReaction(C, T)` returns `null` exactly when no Partial entry
left in the channel has a trigger that is a substring of `T`, and any response
it returns is that of such a Partial entry. -/
theorem removeReaction_then_getReaction (saveOk : Bool) (reactions : Reactions)
    (channelId : PlatformId) (trigger : String) :
    (∀ table, getOwn (removeReaction saveOk reactions channelId trigger).1 channelId.1 =
        some table → getOwn table.own trigger = none) ∧
    (getReaction (removeReaction saveOk reactions channelId trigger).1 channelId trigger = none ↔
      ∀ table, getOwn (removeReaction saveOk reactions channelId trigger).1 channelId.1 =
          some table →
        ∀ p ∈ table.own,
          ¬ (p.2.matchType = PARTIAL ∧ List.IsInfix p.1.data trigger.data)) ∧
    (∀ r, getReaction (removeReaction saveOk reactions channelId trigger).1 channelId trigger =
        some r →
      ∃ table p, getOwn (removeReaction saveOk reactions channelId trigger).1 channelId.1 =
          some table ∧ p ∈ table.own ∧ p.2.response = r ∧ p.1 ≠ trigger ∧
        p.2.matchType = PARTIAL ∧ List.IsInfix p.1.data trigger.data) := by
  have hgone : ∀ table,
      getOwn (removeReaction saveOk reactions channelId trigger).1 channelId.1 = some table →
      ∀ p ∈ table.own, p.1 ≠ trigger := fun table h =>
    (getOwn_none_iff _ _).1 (removeReaction_table_after saveOk reactions channelId trigger table h).1
  obtain ⟨h1, h2⟩ :=
    getReaction_sound_complete (removeReaction saveOk reactions channelId trigger).1
      channelId trigger
  refine ⟨fun table h =>
    (removeReaction_table_after saveOk reactions channelId trigger table h).1, ?_, ?_⟩
  · rw [h1]
    constructor
    · intro h table ht p hp
      exact (h table ht p hp).2
    · intro h table ht p hp
      exact ⟨fun hx => hgone table ht p hp hx.2, h table ht p hp⟩
  · intro r hr
    obtain ⟨table, p, ht, hp, hresp, hcase⟩ := h2 r hr
    rcases hcase with hx | hx
    · exact absurd hx.2 (hgone table ht p hp)
    · exact ⟨table, p, ht, hp, hresp, hgone table ht p hp, hx.1, hx.2⟩

/-! ## Outcomes of `addReaction` and `removeReaction` -/

theorem addReaction_of_invalid (saveOk : Bool) (reactions : Reactions)
    (channelId : PlatformId) (trigger response matchType : String)
    (h : MATCH_TYPES.contains matchType = false) :
    addReaction saveOk reactions channelId trigger response matchType =
      (reactions, .error .invalidMatchType) := by
  unfold addReaction
  rw [h]
  rfl

theorem addReaction_snd_of_valid (saveOk : Bool) (reactions : Reactions)
    (channelId : PlatformId) (trigger response matchType : String)
    (h : MATCH_TYPES.contains matchType = true) :
    (addReaction saveOk reactions channelId trigger response matchType).2 =
      saveReactions saveOk := by
  unfold addReaction
  rw [h]
  rfl

/-- C6 (counterexample). With the valid mode token `部分` and a failing write,
`addReaction` fails although the match type is valid, and the table has
changed: it now holds the new entry. -/
theorem addReaction_fails_on_save :
    MATCH_TYPES.contains PARTIAL = true ∧
      (addReaction false [] channelC1 "ping" "pong" PARTIAL).2 = .error .saveFailed ∧
      (addReaction false [] channelC1 "ping" "pong" PARTIAL).1 =
        [("C1", ⟨[("ping", ⟨"pong", PARTIAL⟩)], none⟩)] ∧
      (addReaction false [] channelC1 "ping" "pong" PARTIAL).1 ≠ [] := by
  refine ⟨by decide, by decide, by decide, by decide⟩

/-- The outcomes of `addReaction`: the invalid-match-type error exactly when
`matchType` is neither mode token, the table then being unchanged; otherwise
the outcome of the write of the file, the table being the same whether the
write succeeds or not. -/
theorem addReaction_result (saveOk : Bool) (reactions : Reactions)
    (channelId : PlatformId) (trigger response matchType : String) :
    ((addReaction saveOk reactions channelId trigger response matchType).2 =
        .error .invalidMatchType ↔ (matchType ≠ PARTIAL ∧ matchType ≠ EXACT)) ∧
    ((addReaction saveOk reactions channelId trigger response matchType).2 =
        .error .invalidMatchType →
      (addReaction saveOk reactions channelId trigger response matchType).1 = reactions) ∧
    ((addReaction saveOk reactions channelId trigger response matchType).2 =
        .error .saveFailed ↔ ((matchType = PARTIAL ∨ matchType = EXACT) ∧ saveOk = false)) ∧
    ((addReaction saveOk reactions channelId trigger response matchType).2 = .ok () ↔
      ((matchType = PARTIAL ∨ matchType = EXACT) ∧ saveOk = true)) ∧
    (addReaction saveOk reactions channelId trigger response matchType).1 =
      (addReaction true reactions channelId trigger response matchType).1 := by
  by_cases hv : MATCH_TYPES.contains matchType = true
  · have hv2 := (contains_iff matchType).1 hv
    have hnot : ¬ (matchType ≠ PARTIAL ∧ matchType ≠ EXACT) := by
      rintro ⟨h1, h2⟩
      rcases hv2 with h | h
      · exact h1 h
      · exact h2 h
    rw [addReaction_snd_of_valid _ _ _ _ _ _ hv, addReaction_fst_of_valid _ _ _ _ _ _ hv,
      addReaction_fst_of_valid _ _ _ _ _ _ hv]
    cases saveOk <;> simp [saveReactions, hv2, hnot]
  · have hv1 : MATCH_TYPES.contains matchType = false := by simpa using hv
    have hv2 : ¬ (matchType = PARTIAL ∨ matchType = EXACT) :=
      fun h => hv ((contains_iff matchType).2 h)
    have hv3 : matchType ≠ PARTIAL ∧ matchType ≠ EXACT :=
      ⟨fun h => hv2 (Or.inl h), fun h => hv2 (Or.inr h)⟩
    rw [addReaction_of_invalid _ _ _ _ _ _ hv1, addReaction_of_invalid _ _ _ _ _ _ hv1]
    simp [hv2, hv3]

/-- C7 (counterexample). With `ping` registered and a failing write,
`removeReaction` on `ping` does not return `true`: it rejects with the write
error, the entry already deleted. -/
theorem removeReaction_fails_on_save :
    hasReaction pingTable channelC1 "ping" = true ∧
      (removeReaction false pingTable channelC1 "ping").2 = .error .saveFailed ∧
      (removeReaction false pingTable channelC1 "ping").2 ≠ .ok true ∧
      (removeReaction false pingTable channelC1 "ping").1 = [] := by
  refine ⟨by decide, by decide, by decide, by decide⟩

/-- The key `constructor`, never registered, is found on the prototype chain:
`removeReaction` returns `true` for it, on every call. -/
theorem removeReaction_inherited_key :
    getOwn [("ping", (⟨"pong", PARTIAL⟩ : ReactionConfig))] "constructor" = none ∧
      removeReaction true pingTable channelC1 "constructor" = (pingTable, .ok true) := by
  refine ⟨by decide, by decide⟩

/-- C7 (amended). For a trigger that is not the name of a property inherited by
the channel's table: when the trigger is not registered, `removeReaction`
returns `false` and leaves the table unchanged; when it is registered, the entry
is deleted and the call returns `true` if the file is written, and rejects with
the write error otherwise; and a second call on the same trigger returns `false`
and changes nothing. -/
theorem removeReaction_outcome (saveOk saveOk2 : Bool) (reactions : Reactions)
    (channelId : PlatformId) (trigger : String)
    (hin : ∀ table, getOwn reactions channelId.1 = some table →
      inheritsKey table trigger = false) :
    ((∀ table, getOwn reactions channelId.1 = some table → getOwn table.own trigger = none) →
      removeReaction saveOk reactions channelId trigger = (reactions, .ok false)) ∧
    ((∃ table cfg, getOwn reactions channelId.1 = some table ∧
        getOwn table.own trigger = some cfg) →
      (removeReaction saveOk reactions channelId trigger).2 =
          (if saveOk then .ok true else .error .saveFailed) ∧
        hasReaction (removeReaction saveOk reactions channelId trigger).1 channelId trigger =
          false) ∧
    removeReaction saveOk2 (removeReaction saveOk reactions channelId trigger).1
        channelId trigger =
      ((removeReaction saveOk reactions channelId trigger).1, .ok false) := by
  have hafter : ∀ table1,
      getOwn (removeReaction saveOk reactions channelId trigger).1 channelId.1 = some table1 →
      hasOwn table1.own trigger = false ∧ inheritsKey table1 trigger = false := by
    intro table1 h1
    obtain ⟨hnone, table, htab, hproto, _⟩ :=
      removeReaction_table_after saveOk reactions channelId trigger table1 h1
    refine ⟨(hasOwn_false_iff _ _).2 hnone, ?_⟩
    have := hin table htab
    unfold inheritsKey at this ⊢
    rw [hproto]
    exact this
  refine ⟨?_, ?_, ?_⟩
  · intro hnot
    cases hc : getOwn reactions channelId.1 with
    | none => exact removeReaction_absent saveOk trigger hc
    | some table =>
      exact removeReaction_falsy saveOk hc
        (truthyAt_false_of table trigger ((hasOwn_false_iff _ _).2 (hnot table hc))
          (hin table hc))
  · rintro ⟨table, cfg, hc, hcfg⟩
    have hown : hasOwn table.own trigger = true := by
      rw [hasOwn_eq_isSome, hcfg]
      rfl
    constructor
    · rw [removeReaction_truthy saveOk hc (truthyAt_of_hasOwn table trigger hown)]
      cases saveOk <;> rfl
    · unfold hasReaction
      cases h1 : getOwn (removeReaction saveOk reactions channelId trigger).1 channelId.1 with
      | none => rfl
      | some table1 =>
        obtain ⟨ha, hb⟩ := hafter table1 h1
        simp [inTable, ha, hb]
  · cases h1 : getOwn (removeReaction saveOk reactions channelId trigger).1 channelId.1 with
    | none => exact removeReaction_absent saveOk2 trigger h1
    | some table1 =>
      obtain ⟨ha, hb⟩ := hafter table1 h1
      exact removeReaction_falsy saveOk2 h1 (truthyAt_false_of table1 trigger ha hb)

/-- Witness for `removeReaction_outcome`: `ping` registered in channel `C1`;
the second of two removals returns `false`. -/
theorem removeReaction_outcome_witness :
    (∀ table, getOwn pingTable channelC1.1 = some table → inheritsKey table "ping" = false) ∧
      removeReaction true (removeReaction true pingTable channelC1 "ping").1 channelC1 "ping" =
        ((removeReaction true pingTable channelC1 "ping").1, .ok false) :=
  have hin : ∀ table, getOwn pingTable channelC1.1 = some table →
      inheritsKey table "ping" = false := by
    intro table h
    have h2 : getOwn pingTable channelC1.1 = some ⟨[("ping", ⟨"pong", PARTIAL⟩)], none⟩ := by
      decide
    rw [h2] at h
    simp only [Option.some.injEq] at h
    subst h
    decide
  ⟨hin, (removeReaction_outcome true true pingTable channelC1 "ping" hin).2.2⟩

/-! ## Draw ledger -/

theorem getOwn_recordOmikuji (saveOk : Bool) (today timeStr : String) (history : History)
    (channelId userId : PlatformId) (fortune : String) :
    ∃ record, getOwn (recordOmikuji saveOk today timeStr history channelId userId fortune).1
        channelId.1 = some record ∧
      getOwn record.users userId.1 = some ⟨today, fortune, timeStr⟩ ∧
      (⟨today, timeStr, userId.1, fortune⟩ : DrawLog) ∈ record.logs ∧
      (∀ old, getOwn history channelId.1 = some old → record.date = old.date) ∧
      (getOwn history channelId.1 = none → record.date = today) := by
  unfold recordOmikuji
  refine ⟨_, getOwn_setOwn_same _ _ _, getOwn_setOwn_same _ _ _, by simp, ?_, ?_⟩
  · intro old h
    simp only [h]
  · intro h
    simp only [h]

/-- C8 (failing input). From the empty ledger, `U1` draws on `2026-11-3` and
`U2` draws on `2026-11-4` in the same channel. On `2026-11-4`
`hasDrawnToday(C1, U2)` is true although the stored record is still dated
`2026-11-3`. -/
theorem hasDrawnToday_on_stale_record :
    hasDrawnToday "2026-11-4" ledgerDayFour channelC1 userU2 = true ∧
      (getOwn ledgerDayFour channelC1.1).map (fun r => r.date) = some "2026-11-3" ∧
      (getOwn ledgerDayFour channelC1.1).map (fun r => decide (r.date = "2026-11-4")) =
        some false := by
  refine ⟨by decide, by decide, by decide⟩

/-- C9 (failing input). A record stored on `2026-11-3` is not replaced by
`recordOmikuji` on `2026-11-4`: it keeps its date, the entry of `U1` and the log
line of the earlier day, and the new entry and log line are merged into it. -/
theorem recordOmikuji_keeps_stale_record :
    getOwn ledgerDayFour channelC1.1 =
      some { date := "2026-11-3",
             users := [("U1", ⟨"2026-11-3", "吉！", "10:00:00"⟩),
                       ("U2", ⟨"2026-11-4", "大吉！！！", "09:30:00"⟩)],
             logs := [⟨"2026-11-3", "10:00:00", "U1", "吉！"⟩,
                      ⟨"2026-11-4", "09:30:00", "U2", "大吉！！！"⟩] } ∧
      getChannelHistory "2026-11-4" ledgerDayFour channelC1 = [] := by
  refine ⟨by decide, by decide⟩

/-- Daily isolation: after `recordOmikuji(C, U, F)` on day `D1`, on any
other day `D2` the call `hasDrawnToday(C, U)` is false, and
`getChannelHistory(C)` is empty as long as the record held for `C` before the
call, if any, was not already dated `D2` (the clock has not shown `D2` yet);
the record with the entry and the log line of `D1` is still in the ledger. -/
theorem daily_isolation (saveOk : Bool) (D1 D2 timeStr : String) (history : History)
    (channelId userId : PlatformId) (fortune : String) (hne : D1 ≠ D2) :
    hasDrawnToday D2 (recordOmikuji saveOk D1 timeStr history channelId userId fortune).1
        channelId userId = false ∧
    ((∀ old, getOwn history channelId.1 = some old → old.date ≠ D2) →
      getChannelHistory D2 (recordOmikuji saveOk D1 timeStr history channelId userId fortune).1
        channelId = []) ∧
    (∃ record, getOwn (recordOmikuji saveOk D1 timeStr history channelId userId fortune).1
        channelId.1 = some record ∧
      getOwn record.users userId.1 = some ⟨D1, fortune, timeStr⟩ ∧
      (⟨D1, timeStr, userId.1, fortune⟩ : DrawLog) ∈ record.logs) := by
  obtain ⟨record, h1, h2, h3, h4, h5⟩ :=
    getOwn_recordOmikuji saveOk D1 timeStr history channelId userId fortune
  refine ⟨?_, ?_, record, h1, h2, h3⟩
  · unfold hasDrawnToday
    rw [h1]
    simp only [h2]
    simpa using hne
  · intro hold
    unfold getChannelHistory
    rw [h1]
    have hd : record.date ≠ D2 := by
      cases hc : getOwn history channelId.1 with
      | none =>
        rw [h5 hc]
        exact hne
      | some old =>
        rw [h4 old hc]
        exact hold old hc
    simp [hd]

/-- Witness for `daily_isolation`: `U2` draws on `2026-11-4` in the ledger left
by `2026-11-3`; on `2026-11-5` nothing of it is visible. -/
theorem daily_isolation_witness :
    "2026-11-4" ≠ "2026-11-5" ∧
      hasDrawnToday "2026-11-5" ledgerDayFour channelC1 userU2 = false ∧
      getChannelHistory "2026-11-5" ledgerDayFour channelC1 = [] :=
  have h := daily_isolation true "2026-11-4" "2026-11-5" "09:30:00" ledgerDayThree
    channelC1 userU2 "大吉！！！" (by decide)
  ⟨by decide, h.1, h.2.1 (by
    intro old hold
    have h2 : getOwn ledgerDayThree channelC1.1 =
        some ⟨"2026-11-3", [("U1", ⟨"2026-11-3", "吉！", "10:00:00"⟩)],
          [⟨"2026-11-3", "10:00:00", "U1", "吉！"⟩]⟩ := by decide
    rw [h2] at hold
    simp only [Option.some.injEq] at hold
    subst hold
    decide)⟩

/-! ## Order of the entries -/

/-- C4 (counterexample). `b` is registered first and `1` second, both Partial
and both contained in the message `b1`, and no Exact entry exists; the first in
registration order is `b` with response `R1`, but `getReaction` returns `R2`. -/
theorem getReaction_not_registration_order :
    (registrationOrder opsBThenOne).map Prod.fst = ["b", "1"] ∧
      firstPartial (registrationOrder opsBThenOne) "b1" = some "R1" ∧
      getReaction (runOps channelC1 opsBThenOne) channelC1 "b1" = some "R2" ∧
      getAllReactions (runOps channelC1 opsBThenOne) channelC1 =
        [⟨"1", "R2", PARTIAL⟩, ⟨"b", "R1", PARTIAL⟩] := by
  refine ⟨by decide, by decide, by decide, by decide⟩

section OrderLemmas

variable {α : Type}

theorem mem_insertSorted (a x : String × α) (l : Props α) :
    x ∈ insertSorted a l ↔ x = a ∨ x ∈ l := by
  induction l with
  | nil => simp [insertSorted]
  | cons b l ih =>
    unfold insertSorted
    by_cases h : keyIndex a ≤ keyIndex b
    · simp [h]
    · simp only [h, if_false, List.mem_cons, ih]
      tauto

theorem perm_insertSorted (a : String × α) (l : Props α) :
    List.Perm (insertSorted a l) (a :: l) := by
  induction l with
  | nil => exact List.Perm.refl _
  | cons b l ih =>
    unfold insertSorted
    by_cases h : keyIndex a ≤ keyIndex b
    · simp [h]
    · simp only [h, if_false]
      exact (List.Perm.cons b ih).trans (List.Perm.swap a b l)

theorem ascending_insertSorted (a : String × α) (l : Props α) (h : Ascending l) :
    Ascending (insertSorted a l) := by
  induction l with
  | nil => simp [insertSorted, Ascending]
  | cons b l ih =>
    unfold Ascending at h ih ⊢
    rw [List.pairwise_cons] at h
    unfold insertSorted
    by_cases hab : keyIndex a ≤ keyIndex b
    · simp only [hab, if_true, List.pairwise_cons]
      refine ⟨?_, h.1, h.2⟩
      intro c hc
      rcases List.mem_cons.1 hc with hc | hc
      · rw [hc]
        exact hab
      · exact le_trans hab (h.1 c hc)
    · simp only [hab, if_false, List.pairwise_cons]
      refine ⟨?_, ih h.2⟩
      intro c hc
      rcases (mem_insertSorted a c l).1 hc with hc | hc
      · rw [hc]
        exact le_of_lt (not_le.1 hab)
      · exact h.1 c hc

theorem insertSorted_of_le_all (a : String × α) (l : Props α)
    (h : ∀ c ∈ l, keyIndex a ≤ keyIndex c) : insertSorted a l = a :: l := by
  cases l with
  | nil => rfl
  | cons b l =>
    unfold insertSorted
    simp [h b (List.mem_cons_self b l)]

theorem filter_insertSorted (P : String × α → Bool) (a : String × α) (l : Props α)
    (h : Ascending l) :
    (insertSorted a l).filter P =
      if P a then insertSorted a (l.filter P) else l.filter P := by
  induction l with
  | nil => by_cases hp : P a = true <;> simp [insertSorted, hp]
  | cons b l ih =>
    unfold Ascending at h ih
    rw [List.pairwise_cons] at h
    have ih2 := ih h.2
    by_cases hab : keyIndex a ≤ keyIndex b
    · have hle : ∀ c ∈ (b :: l).filter P, keyIndex a ≤ keyIndex c := by
        intro c hc
        rcases List.mem_cons.1 (List.mem_filter.1 hc).1 with hc | hc
        · rw [hc]
          exact hab
        · exact le_trans hab (h.1 c hc)
      rw [insertSorted_of_le_all a ((b :: l).filter P) hle]
      simp only [insertSorted, hab, if_true]
      by_cases hp : P a = true
      · simp [List.filter_cons, hp]
      · simp [List.filter_cons, hp]
    · by_cases hpb : P b = true
      · simp only [insertSorted, hab, if_false, List.filter_cons, hpb, if_true, ih2]
        by_cases hp : P a = true
        · simp [hp, insertSorted, hab]
        · simp [hp]
      · simp only [insertSorted, hab, if_false, List.filter_cons, hpb, ih2]
        simp

theorem map_insertSorted (f : String × α → String × α) (hf : ∀ p, (f p).1 = p.1)
    (a : String × α) (l : Props α) :
    (insertSorted a l).map f = insertSorted (f a) (l.map f) := by
  have hk : ∀ p, keyIndex (f p) = keyIndex p := fun p => by simp [keyIndex, hf p]
  induction l with
  | nil => rfl
  | cons b l ih =>
    by_cases hab : keyIndex a ≤ keyIndex b
    · simp [insertSorted, hab, hk]
    · simp [insertSorted, hab, hk, ih]

theorem sortInto_ascending (l acc : Props α) (h : Ascending acc) :
    Ascending (l.foldl (fun acc a => insertSorted a acc) acc) := by
  induction l generalizing acc with
  | nil => exact h
  | cons a l ih => exact ih _ (ascending_insertSorted a acc h)

theorem sortInto_perm (l acc : Props α) :
    List.Perm (l.foldl (fun acc a => insertSorted a acc) acc) (acc ++ l) := by
  induction l generalizing acc with
  | nil => simp
  | cons a l ih =>
    refine (ih (insertSorted a acc)).trans ?_
    refine ((perm_insertSorted a acc).append_right l).trans ?_
    have hm : List.Perm (acc ++ a :: l) (a :: (acc ++ l)) := List.perm_middle
    simpa using hm.symm

theorem sortInto_filter (P : String × α → Bool) (l acc : Props α) (h : Ascending acc) :
    (l.foldl (fun acc a => insertSorted a acc) acc).filter P =
      (l.filter P).foldl (fun acc a => insertSorted a acc) (acc.filter P) := by
  induction l generalizing acc with
  | nil => rfl
  | cons a l ih =>
    rw [List.foldl_cons, ih _ (ascending_insertSorted a acc h), filter_insertSorted P a acc h]
    by_cases hp : P a = true
    · simp [List.filter_cons, hp]
    · simp [List.filter_cons, hp]

theorem sortInto_map (f : String × α → String × α) (hf : ∀ p, (f p).1 = p.1)
    (l acc : Props α) :
    (l.foldl (fun acc a => insertSorted a acc) acc).map f =
      (l.map f).foldl (fun acc a => insertSorted a acc) (acc.map f) := by
  induction l generalizing acc with
  | nil => rfl
  | cons a l ih =>
    rw [List.foldl_cons, ih, map_insertSorted f hf]
    rfl

theorem sortByIndex_ascending (l : Props α) : Ascending (sortByIndex l) :=
  sortInto_ascending l [] List.Pairwise.nil

theorem sortByIndex_perm (l : Props α) : List.Perm (sortByIndex l) l := by
  simpa [sortByIndex] using sortInto_perm l []

theorem sortByIndex_concat (l : Props α) (a : String × α) :
    sortByIndex (l ++ [a]) = insertSorted a (sortByIndex l) := by
  simp [sortByIndex, List.foldl_append]

end OrderLemmas

section EntriesOrder

variable {α : Type}

theorem insertIndexed_eq (n : Nat) (key : String) (v : α) (hk : arrayIndex? key = some n)
    (L N : Props α) (hL : ∀ p ∈ L, isIndexKey p = true) (hN : ∀ p ∈ N, isIndexKey p = false) :
    insertIndexed n key v (L ++ N) = insertSorted (key, v) L ++ N := by
  have hkey : keyIndex (key, v) = n := by simp [keyIndex, hk]
  induction L with
  | nil =>
    cases N with
    | nil => rfl
    | cons p N =>
      have hp : arrayIndex? p.1 = none := by
        have := hN p (List.mem_cons_self p N)
        simpa [isIndexKey] using this
      simp [insertIndexed, insertSorted, hp]
  | cons b L ih =>
    have hb := hL b (List.mem_cons_self b L)
    obtain ⟨m, hm⟩ : ∃ m, arrayIndex? b.1 = some m := by
      simpa [isIndexKey, Option.isSome_iff_exists] using hb
    have hbk : keyIndex b = m := by simp [keyIndex, hm]
    have ih2 := ih (fun p hp => hL p (List.mem_cons_of_mem b hp))
    by_cases hlt : m < n
    · have hnle : ¬ n ≤ m := not_le.2 hlt
      simp [insertIndexed, insertSorted, hm, hlt, hkey, hbk, hnle, ih2]
    · have hle : n ≤ m := not_lt.1 hlt
      simp [insertIndexed, insertSorted, hm, hlt, hkey, hbk, hle]

theorem entriesOrder_perm (ps : Props α) : List.Perm (entriesOrder ps) ps := by
  unfold entriesOrder
  exact ((sortByIndex_perm _).append_right _).trans (List.filter_append_perm isIndexKey ps)

theorem hasOwn_of_perm {l1 l2 : Props α} (h : List.Perm l1 l2) (key : String) :
    hasOwn l1 key = hasOwn l2 key := by
  have h1 := hasOwn_iff_mem_keys l1 key
  have h2 := hasOwn_iff_mem_keys l2 key
  have h3 : key ∈ l1.map Prod.fst ↔ key ∈ l2.map Prod.fst := (h.map Prod.fst).mem_iff
  cases ha : hasOwn l1 key <;> cases hb : hasOwn l2 key <;> simp_all

theorem hasOwn_entriesOrder (ps : Props α) (key : String) :
    hasOwn (entriesOrder ps) key = hasOwn ps key :=
  hasOwn_of_perm (entriesOrder_perm ps) key

theorem entriesOrder_concat_index (ps : Props α) (key : String) (v : α) (n : Nat)
    (hk : arrayIndex? key = some n) :
    entriesOrder (ps ++ [(key, v)]) = insertIndexed n key v (entriesOrder ps) := by
  have hidx : isIndexKey (key, v) = true := by simp [isIndexKey, hk]
  unfold entriesOrder
  rw [insertIndexed_eq n key v hk]
  · simp [List.filter_append, hidx, sortByIndex_concat]
  · intro p hp
    exact (List.mem_filter.1 ((sortByIndex_perm _).mem_iff.1 hp)).2
  · intro p hp
    simpa using (List.mem_filter.1 hp).2

theorem entriesOrder_concat_named (ps : Props α) (key : String) (v : α)
    (hk : arrayIndex? key = none) :
    entriesOrder (ps ++ [(key, v)]) = entriesOrder ps ++ [(key, v)] := by
  have hidx : isIndexKey (key, v) = false := by simp [isIndexKey, hk]
  unfold entriesOrder
  simp [List.filter_append, hidx]

theorem entriesOrder_updateOwn (ps : Props α) (key : String) (v : α) :
    entriesOrder (updateOwn ps key v) = updateOwn (entriesOrder ps) key v := by
  have hf : ∀ p : String × α, ((fun p : String × α => if p.1 == key then (p.1, v) else p) p).1 = p.1 := by
    intro p
    by_cases h : (p.1 == key) = true <;> simp [h]
  have hidx : ∀ p : String × α,
      isIndexKey ((fun p : String × α => if p.1 == key then (p.1, v) else p) p) = isIndexKey p := by
    intro p
    simp only [isIndexKey, hf p]
  unfold entriesOrder updateOwn
  rw [List.map_append, List.filter_map, List.filter_map]
  have e1 : (isIndexKey ∘ fun p : String × α => if p.1 == key then (p.1, v) else p) = isIndexKey :=
    funext hidx
  have e2 : ((fun p : String × α => !isIndexKey p) ∘
      fun p : String × α => if p.1 == key then (p.1, v) else p) = fun p => !isIndexKey p :=
    funext (fun p => by simp only [Function.comp, hidx p])
  rw [e1, e2]
  congr 1
  unfold sortByIndex
  rw [sortInto_map _ hf]
  rfl

theorem entriesOrder_deleteOwn (ps : Props α) (key : String) :
    entriesOrder (deleteOwn ps key) = deleteOwn (entriesOrder ps) key := by
  unfold entriesOrder deleteOwn
  rw [List.filter_append, List.filter_filter, List.filter_filter, List.filter_filter]
  congr 1
  · unfold sortByIndex
    rw [sortInto_filter _ _ _ List.Pairwise.nil, List.filter_filter]
    simp [Bool.and_comm]
  · simp [Bool.and_comm]

/-- Writing a property into an object whose properties were created in the
order `ps` gives the object whose properties were created in the order
`orderedUpsert ps key v`. -/
theorem setOwn_entriesOrder (ps : Props α) (key : String) (v : α) :
    setOwn (entriesOrder ps) key v = entriesOrder (orderedUpsert ps key v) := by
  unfold setOwn orderedUpsert
  rw [hasOwn_entriesOrder]
  by_cases h : hasOwn ps key = true
  · simp only [h, if_true]
    exact (entriesOrder_updateOwn ps key v).symm
  · simp only [h, if_false, Bool.false_eq_true]
    cases hk : arrayIndex? key with
    | none => exact (entriesOrder_concat_named ps key v hk).symm
    | some n => exact (entriesOrder_concat_index ps key v n hk).symm

end EntriesOrder

/-! ## The table reached by a sequence of requests -/

theorem deleteOwn_of_absent {α : Type} (ps : Props α) (key : String)
    (h : hasOwn ps key = false) : deleteOwn ps key = ps := by
  have h2 := (getOwn_none_iff ps key).1 ((hasOwn_false_iff ps key).1 h)
  unfold deleteOwn
  rw [List.filter_eq_self]
  intro p hp
  simpa using h2 p hp

theorem entriesOf_addReaction (saveOk : Bool) (reactions : Reactions) (channelId : PlatformId)
    (trigger response matchType : String) (hv : MATCH_TYPES.contains matchType = true)
    (ht : trigger ≠ "__proto__") :
    entriesOf (addReaction saveOk reactions channelId trigger response matchType).1 channelId =
      setOwn (entriesOf reactions channelId) trigger ⟨response, matchType⟩ := by
  rw [addReaction_fst_of_valid _ _ _ _ _ _ hv]
  unfold entriesOf
  rw [getOwn_setOwn_same]
  have hb : (trigger == "__proto__") = false := by simpa using ht
  cases getOwn reactions channelId.1 <;> simp [assignAt, hb, emptyTable]

theorem entriesOf_removeReaction (saveOk : Bool) (reactions : Reactions)
    (channelId : PlatformId) (trigger : String) :
    entriesOf (removeReaction saveOk reactions channelId trigger).1 channelId =
      deleteOwn (entriesOf reactions channelId) trigger := by
  cases hc : getOwn reactions channelId.1 with
  | none =>
    rw [removeReaction_absent saveOk trigger hc]
    simp [entriesOf, hc, deleteOwn]
  | some table =>
    by_cases ht : truthyAt table trigger = true
    · rw [removeReaction_truthy saveOk hc ht]
      by_cases hl : ((deleteOwn table.own trigger).length == 0) = true
      · rw [if_pos hl]
        have hnil : deleteOwn table.own trigger = [] := by
          simpa using hl
        simp [entriesOf, getOwn_deleteOwn_same, hc, hnil]
      · rw [if_neg hl]
        simp [entriesOf, getOwn_setOwn_same, hc]
    · have ht2 : truthyAt table trigger = false := by simpa using ht
      rw [removeReaction_falsy saveOk hc ht2]
      simp [entriesOf, hc, deleteOwn_of_absent _ _ (hasOwn_of_truthyAt_false _ _ ht2)]

theorem entriesOf_applyOp (channelId : PlatformId) (reactions : Reactions)
    (spec : Props ReactionConfig) (op : TableOp)
    (hop : ∀ t r mt, op = .register t r mt → t ≠ "__proto__")
    (h : entriesOf reactions channelId = entriesOrder spec) :
    entriesOf (applyOp channelId reactions op) channelId =
      entriesOrder (registerStep spec op) := by
  cases op with
  | register t r mt =>
    show entriesOf (addReaction true reactions channelId t r mt).1 channelId =
      entriesOrder (if MATCH_TYPES.contains mt then orderedUpsert spec t ⟨r, mt⟩ else spec)
    by_cases hv : MATCH_TYPES.contains mt = true
    · rw [entriesOf_addReaction _ _ _ _ _ _ hv (hop t r mt rfl), h, setOwn_entriesOrder,
        if_pos hv]
    · have hv1 : MATCH_TYPES.contains mt = false := by simpa using hv
      rw [addReaction_of_invalid _ _ _ _ _ _ hv1, if_neg hv]
      exact h
  | unregister t =>
    show entriesOf (removeReaction true reactions channelId t).1 channelId =
      entriesOrder (deleteOwn spec t)
    rw [entriesOf_removeReaction, h, entriesOrder_deleteOwn]

theorem entriesOf_foldl (channelId : PlatformId) (ops : List TableOp)
    (hops : ∀ t r mt, TableOp.register t r mt ∈ ops → t ≠ "__proto__")
    (reactions : Reactions) (spec : Props ReactionConfig)
    (h : entriesOf reactions channelId = entriesOrder spec) :
    entriesOf (ops.foldl (applyOp channelId) reactions) channelId =
      entriesOrder (ops.foldl registerStep spec) := by
  induction ops generalizing reactions spec with
  | nil => exact h
  | cons op ops ih =>
    rw [List.foldl_cons, List.foldl_cons]
    apply ih
    · intro t r mt hm
      exact hops t r mt (List.mem_cons_of_mem op hm)
    · apply entriesOf_applyOp _ _ _ _ _ h
      intro t r mt he
      exact hops t r mt (he ▸ List.mem_cons_self op ops)

/-- The entries of the table reached by a sequence of requests that never
registers `__proto__` are the registered entries, array-index triggers first in
ascending order, the others after them in registration order. -/
theorem entriesOf_runOps (channelId : PlatformId) (ops : List TableOp)
    (hops : ∀ t r mt, TableOp.register t r mt ∈ ops → t ≠ "__proto__") :
    entriesOf (runOps channelId ops) channelId = entriesOrder (registrationOrder ops) :=
  entriesOf_foldl channelId ops hops [] [] rfl

theorem getReaction_eq_firstPartial (reactions : Reactions) (channelId : PlatformId)
    (m : String)
    (h : ∀ p ∈ entriesOf reactions channelId, ¬ (p.2.matchType = EXACT ∧ p.1 = m)) :
    getReaction reactions channelId m = firstPartial (entriesOf reactions channelId) m := by
  cases hc : getOwn reactions channelId.1 with
  | none =>
    rw [getReaction_absent hc]
    simp [entriesOf, hc, firstPartial]
  | some table =>
    have he : entriesOf reactions channelId = table.own := by simp [entriesOf, hc]
    rw [he] at h ⊢
    rw [getReaction_second_pass hc ((exactMatch_none_iff table m).2 h)]
    rfl

theorem entriesOrder_of_named {α : Type} (ps : Props α)
    (h : ∀ p ∈ ps, arrayIndex? p.1 = none) : entriesOrder ps = ps := by
  have h1 : ps.filter isIndexKey = [] := by
    rw [List.filter_eq_nil_iff]
    intro p hp
    simp [isIndexKey, h p hp]
  have h2 : ps.filter (fun p => !isIndexKey p) = ps := by
    rw [List.filter_eq_self]
    intro p hp
    simp [isIndexKey, h p hp]
  unfold entriesOrder
  rw [h1, h2]
  rfl

/-- C4 (amended). In the table reached by any sequence of registrations and
removals that never registers `__proto__`, for a message that no Exact entry
equals, `getReaction` returns the response of the first Partial entry whose
trigger is a substring of the message in this order: the array-index triggers
(canonical decimal integers up to 4294967294) in ascending numeric order, then
all other triggers in registration order, a re-registered trigger keeping its
position. When no registered trigger is an array index, that is registration
order itself. -/
theorem getReaction_first_in_entries_order (channelId : PlatformId) (ops : List TableOp)
    (messageText : String)
    (hops : ∀ t r mt, TableOp.register t r mt ∈ ops → t ≠ "__proto__")
    (hexact : ∀ p ∈ registrationOrder ops, ¬ (p.2.matchType = EXACT ∧ p.1 = messageText)) :
    getReaction (runOps channelId ops) channelId messageText =
        firstPartial (entriesOrder (registrationOrder ops)) messageText ∧
      ((∀ p ∈ registrationOrder ops, arrayIndex? p.1 = none) →
        getReaction (runOps channelId ops) channelId messageText =
          firstPartial (registrationOrder ops) messageText) := by
  have hent := entriesOf_runOps channelId ops hops
  have h1 : getReaction (runOps channelId ops) channelId messageText =
      firstPartial (entriesOrder (registrationOrder ops)) messageText := by
    rw [← hent]
    apply getReaction_eq_firstPartial
    intro p hp
    rw [hent] at hp
    exact hexact p ((entriesOrder_perm _).mem_iff.1 hp)
  refine ⟨h1, ?_⟩
  intro hnamed
  rw [h1, entriesOrder_of_named _ hnamed]

/-- Witness for `getReaction_first_in_entries_order`: `b`, `a`, then `b` again;
the message `ab` is answered by `b`, first registered, with its latest
response. -/
theorem getReaction_first_in_entries_order_witness :
    registrationOrder opsReRegister = [("b", ⟨"R3", PARTIAL⟩), ("a", ⟨"R2", PARTIAL⟩)] ∧
      getReaction (runOps channelC1 opsReRegister) channelC1 "ab" =
        firstPartial (registrationOrder opsReRegister) "ab" ∧
      firstPartial (registrationOrder opsReRegister) "ab" = some "R3" :=
  have hreg : registrationOrder opsReRegister =
      [("b", ⟨"R3", PARTIAL⟩), ("a", ⟨"R2", PARTIAL⟩)] := by decide
  have hops : ∀ t r mt, TableOp.register t r mt ∈ opsReRegister → t ≠ "__proto__" := by
    intro t r mt h
    simp only [opsReRegister, List.mem_cons, TableOp.register.injEq, List.mem_singleton,
      List.not_mem_nil, or_false] at h
    rcases h with h | h | h <;> (rw [h.1]; decide)
  have hexact : ∀ p ∈ registrationOrder opsReRegister,
      ¬ (p.2.matchType = EXACT ∧ p.1 = "ab") := by
    intro p hp
    rw [hreg] at hp
    simp only [List.mem_cons, List.mem_singleton, List.not_mem_nil, or_false] at hp
    rcases hp with hp | hp <;> (rw [hp]; decide)
  have hnamed : ∀ p ∈ registrationOrder opsReRegister, arrayIndex? p.1 = none := by
    intro p hp
    rw [hreg] at hp
    simp only [List.mem_cons, List.mem_singleton, List.not_mem_nil, or_false] at hp
    rcases hp with hp | hp <;> (rw [hp]; decide)
  ⟨hreg,
    (getReaction_first_in_entries_order channelC1 opsReRegister "ab" hops hexact).2 hnamed,
    by decide⟩

/-! ## Fortune draw -/

theorem cumulativeWalk_fortunes (r : Nat) :
    cumulativeWalk fortunes 0 r =
      if r ≤ 5 then some ":自爆:自爆:自爆:"
      else if r ≤ 15 then some "大吉！！！"
      else if r ≤ 45 then some "吉！"
      else if r ≤ 65 then some "中吉！！"
      else if r ≤ 80 then some "小吉"
      else if r ≤ 90 then some "末吉"
      else if r ≤ 98 then some "凶"
      else if r ≤ 100 then some "大凶"
      else none := by
  simp only [cumulativeWalk, fortunes, Nat.zero_add, Nat.reduceAdd]

/-- C11. The weights sum to 100; for `r` from 1 to 100 the walk returns the
fortune whose interval (1-5, 6-15, 16-45, 46-65, 66-80, 81-90, 91-98, 99-100)
contains `r`, so each fortune is returned for exactly as many values of `r` as
its weight; the loop ends without a result, giving the fallback `吉！`, exactly
when `r` exceeds 100. -/
theorem drawOmikuji_intervals :
    (fortunes.map (fun f => f.probability)).sum = 100 ∧
    (∀ r, 1 ≤ r → r ≤ 100 →
      drawOmikuji r =
        (if r ≤ 5 then ":自爆:自爆:自爆:" else if r ≤ 15 then "大吉！！！"
         else if r ≤ 45 then "吉！" else if r ≤ 65 then "中吉！！"
         else if r ≤ 80 then "小吉" else if r ≤ 90 then "末吉"
         else if r ≤ 98 then "凶" else "大凶") ∧
      cumulativeWalk fortunes 0 r = some (drawOmikuji r)) ∧
    (∀ f ∈ fortunes,
      ((List.range 101).filter
        (fun r => decide (1 ≤ r) && decide (drawOmikuji r = f.result))).length =
        f.probability) ∧
    (∀ r, cumulativeWalk fortunes 0 r = none ↔ 100 < r) ∧
    (∀ r, 100 < r → drawOmikuji r = "吉！") := by
  refine ⟨by decide, ?_, ?_, ?_, ?_⟩
  · intro r h1 h2
    unfold drawOmikuji
    rw [cumulativeWalk_fortunes]
    split_ifs <;> exact ⟨rfl, rfl⟩
  · decide
  · intro r
    rw [cumulativeWalk_fortunes]
    split_ifs <;> simp
    all_goals omega
  · intro r h
    unfold drawOmikuji
    rw [cumulativeWalk_fortunes]
    split_ifs <;> first | rfl | omega

/-! ## Admin registry -/

theorem adminServiceIsAdmin_iff (channelAdmins : ChannelAdmins) (channelId : PlatformId)
    (userId : String) :
    adminServiceIsAdmin channelAdmins channelId userId = .ok true ↔
      userId = FIXED_ADMIN ∨
        ∃ members, getOwn channelAdmins channelId.1 = some (.set members) ∧
          userId ∈ members := by
  unfold adminServiceIsAdmin
  by_cases hu : userId = FIXED_ADMIN
  · simp [hu]
  · have hb : (userId == FIXED_ADMIN) = false := by simpa using hu
    rw [hb]
    cases hc : getOwn channelAdmins channelId.1 with
    | none => simp [hu]
    | some value =>
      cases value with
      | set members => simp [hu]
      | parsed json => cases json <;> simp [hu]

theorem adminServiceIsAdmin_throws_iff (channelAdmins : ChannelAdmins)
    (channelId : PlatformId) (userId : String) (e : AdminError) :
    adminServiceIsAdmin channelAdmins channelId userId = .error e ↔
      e = .typeError ∧ userId ≠ FIXED_ADMIN ∧
        ∃ json, getOwn channelAdmins channelId.1 = some (.parsed json) ∧
          json ≠ AdminJson.null := by
  unfold adminServiceIsAdmin
  by_cases hu : userId = FIXED_ADMIN
  · simp [hu]
  · have hb : (userId == FIXED_ADMIN) = false := by simpa using hu
    rw [hb]
    cases hc : getOwn channelAdmins channelId.1 with
    | none => simp
    | some value =>
      cases value with
      | set members => simp
      | parsed json =>
        cases json <;> cases e <;> simp [hu]

theorem isAdmin_eq (channelAdmins : ChannelAdmins) (channelId : PlatformId)
    (userId : String) :
    isAdmin channelAdmins channelId userId =
      adminServiceIsAdmin channelAdmins channelId userId := by
  unfold isAdmin adminServiceIsAdmin
  by_cases hu : (userId == FIXED_ADMIN) = true
  · simp [hu]
  · simp [hu]

/-- C12. In every registry, whether a channel's value is a `Set` or a value
stored by `loadAdminUsers`, `isAdmin` (of `index.js` and of `adminService.js`)
returns true exactly when the user is `FIXED_ADMIN` or a member of the channel's
`Set`; for `FIXED_ADMIN` it returns true in every channel, a channel without
key included. In the other cases it returns false, or throws `TypeError`: that
is when the user is not `FIXED_ADMIN` and the channel's value is a parsed value
other than `null`. -/
theorem isAdmin_spec (channelAdmins : ChannelAdmins) (channelId : PlatformId)
    (userId : String) :
    (isAdmin channelAdmins channelId userId = .ok true ↔
      userId = FIXED_ADMIN ∨
        ∃ members, getOwn channelAdmins channelId.1 = some (.set members) ∧
          userId ∈ members) ∧
    (adminServiceIsAdmin channelAdmins channelId userId = .ok true ↔
      userId = FIXED_ADMIN ∨
        ∃ members, getOwn channelAdmins channelId.1 = some (.set members) ∧
          userId ∈ members) ∧
    isAdmin channelAdmins channelId FIXED_ADMIN = .ok true ∧
    adminServiceIsAdmin channelAdmins channelId FIXED_ADMIN = .ok true ∧
    isAdmin [] channelId FIXED_ADMIN = .ok true ∧
    (∀ e, isAdmin channelAdmins channelId userId = .error e ↔
      e = .typeError ∧ userId ≠ FIXED_ADMIN ∧
        ∃ json, getOwn channelAdmins channelId.1 = some (.parsed json) ∧
          json ≠ AdminJson.null) := by
  refine ⟨?_, adminServiceIsAdmin_iff channelAdmins channelId userId, rfl, rfl, rfl, ?_⟩
  · rw [isAdmin_eq]
    exact adminServiceIsAdmin_iff channelAdmins channelId userId
  · intro e
    rw [isAdmin_eq]
    exact adminServiceIsAdmin_throws_iff channelAdmins channelId userId e

/-- After `loadAdminUsers` has read `{ channels: { C1: {} } }`, which is what
`saveAdminUsers` writes for a channel, `isAdmin('C1', 'U2')` throws
`TypeError`. -/
theorem isAdmin_after_load_throws :
    isAdmin (loadAdminUsers (some [("C1", AdminJson.emptyObject)])) channelC1 "U2" =
      .error .typeError := by
  decide

theorem handleRemoveAdmin_course (channelAdmins : ChannelAdmins) (channelId : PlatformId)
    (requester targetUserId : String) :
    (handleRemoveAdmin channelAdmins channelId requester targetUserId).1 = channelAdmins ∧
      ((handleRemoveAdmin channelAdmins channelId requester targetUserId).2 = .adminOnly ∨
        (handleRemoveAdmin channelAdmins channelId requester targetUserId).2 =
          .genericError) := by
  unfold handleRemoveAdmin readUndeclared
  cases isAdmin channelAdmins channelId requester with
  | error e => exact ⟨rfl, Or.inr rfl⟩
  | ok allowed =>
    cases allowed
    · exact ⟨rfl, Or.inl rfl⟩
    · exact ⟨rfl, Or.inr rfl⟩

theorem handleAddAdmin_course (userExists : Bool) (channelAdmins : ChannelAdmins)
    (channelId : PlatformId) (requester targetUserId : String) :
    (handleAddAdmin userExists channelAdmins channelId requester targetUserId).1 =
        channelAdmins ∧
      ((handleAddAdmin userExists channelAdmins channelId requester targetUserId).2 =
          .adminOnly ∨
        (handleAddAdmin userExists channelAdmins channelId requester targetUserId).2 =
          .genericError) := by
  unfold handleAddAdmin readUndeclared
  cases isAdmin channelAdmins channelId requester with
  | error e => exact ⟨rfl, Or.inr rfl⟩
  | ok allowed =>
    cases allowed
    · exact ⟨rfl, Or.inl rfl⟩
    · exact ⟨rfl, Or.inr rfl⟩

/-- C13 (failing input). In the empty registry the fixed admin, who passes the
permission test, asks in channel `C1` to remove `FIXED_ADMIN`: the comparison
with the undeclared `FIXED_ADMIN` throws and the command ends with the generic
error reply, not with the protected-admin reply. -/
theorem handleRemoveAdmin_fixed_admin_generic_error :
    isAdmin [] channelC1 FIXED_ADMIN = .ok true ∧
      handleRemoveAdmin [] channelC1 FIXED_ADMIN FIXED_ADMIN = ([], .genericError) ∧
      (handleRemoveAdmin [] channelC1 FIXED_ADMIN FIXED_ADMIN).2 ≠ .fixedAdminProtected := by
  refine ⟨by decide, by decide, by decide⟩

/-- C15. Every request to add or to remove an admin leaves the registry as it
was, whatever its reply; so a registry in which no channel maps to an empty
`Set` stays so, and a channel without key gets none. -/
theorem admin_requests_keep_noEmptySet (userExists : Bool) (channelAdmins : ChannelAdmins)
    (channelId : PlatformId) (requester targetUserId : String)
    (h : NoEmptySet channelAdmins) :
    (handleAddAdmin userExists channelAdmins channelId requester targetUserId).1 =
        channelAdmins ∧
      (handleRemoveAdmin channelAdmins channelId requester targetUserId).1 = channelAdmins ∧
      NoEmptySet
        (handleAddAdmin userExists channelAdmins channelId requester targetUserId).1 ∧
      NoEmptySet (handleRemoveAdmin channelAdmins channelId requester targetUserId).1 := by
  have h1 := (handleAddAdmin_course userExists channelAdmins channelId requester targetUserId).1
  have h2 := (handleRemoveAdmin_course channelAdmins channelId requester targetUserId).1
  refine ⟨h1, h2, ?_, ?_⟩
  · rw [h1]
    exact h
  · rw [h2]
    exact h

/-- Witness for `admin_requests_keep_noEmptySet`: in a registry where `C1` has
the admin `U1`, the fixed admin asks to remove `U2`, who is not an admin. -/
theorem admin_requests_keep_noEmptySet_witness :
    NoEmptySet [("C1", AdminValue.set ["U1"])] ∧
      (handleRemoveAdmin [("C1", AdminValue.set ["U1"])] channelC1 FIXED_ADMIN "U2").1 =
        [("C1", AdminValue.set ["U1"])] ∧
      NoEmptySet
        (handleRemoveAdmin [("C1", AdminValue.set ["U1"])] channelC1 FIXED_ADMIN "U2").1 :=
  have h : NoEmptySet [("C1", AdminValue.set ["U1"])] := by
    unfold NoEmptySet
    decide
  have hall := admin_requests_keep_noEmptySet true [("C1", AdminValue.set ["U1"])]
    channelC1 FIXED_ADMIN "U2" h
  ⟨h, hall.2.1, hall.2.2.2⟩

/-! ## Channel keys of the trigger table -/

theorem setOwn_ne_nil {α : Type} (ps : Props α) (key : String) (v : α) :
    setOwn ps key v ≠ [] := by
  intro h
  have := getOwn_setOwn_same ps key v
  rw [h, getOwn_nil] at this
  exact Option.noConfusion this

/-- C16 (failing input). Registering the trigger `__proto__` in the empty table
creates the channel key `C1` without any entry. -/
theorem addReaction_proto_key_empty_channel :
    EveryChannelHasEntry [] ∧
      (addReaction true [] channelC1 "__proto__" "R" EXACT).1 =
        [("C1", ⟨[], some ⟨"R", EXACT⟩⟩)] ∧
      ¬ EveryChannelHasEntry (addReaction true [] channelC1 "__proto__" "R" EXACT).1 := by
  refine ⟨fun key table h => by simp [getOwn_nil] at h, by decide, ?_⟩
  intro h
  exact h "C1" ⟨[], some ⟨"R", EXACT⟩⟩ (by decide) rfl

/-- The table invariant is kept by every `addReaction` whose trigger is not
`__proto__`, rejected or not, and by every `removeReaction`; and after the
removal of the only entry of a channel, `getAllReactions` is empty. -/
theorem everyChannelHasEntry_kept (saveOk : Bool) (reactions : Reactions)
    (channelId : PlatformId) (trigger response matchType : String)
    (h : EveryChannelHasEntry reactions) :
    (trigger ≠ "__proto__" →
      EveryChannelHasEntry
        (addReaction saveOk reactions channelId trigger response matchType).1) ∧
    EveryChannelHasEntry (removeReaction saveOk reactions channelId trigger).1 ∧
    ((∀ table, getOwn reactions channelId.1 = some table →
        table.own.map Prod.fst = [trigger]) →
      getAllReactions (removeReaction saveOk reactions channelId trigger).1 channelId = []) := by
  refine ⟨?_, ?_, ?_⟩
  · intro ht
    by_cases hv : MATCH_TYPES.contains matchType = true
    · rw [addReaction_fst_of_valid _ _ _ _ _ _ hv]
      intro key table hk
      by_cases hkey : key = channelId.1
      · rw [hkey, getOwn_setOwn_same] at hk
        simp only [Option.some.injEq] at hk
        rw [← hk]
        have hb : (trigger == "__proto__") = false := by simpa using ht
        simp only [assignAt, hb, Bool.and_false, Bool.false_eq_true, if_false]
        exact setOwn_ne_nil _ _ _
      · rw [getOwn_setOwn_other _ _ _ _ hkey] at hk
        exact h key table hk
    · have hv1 : MATCH_TYPES.contains matchType = false := by simpa using hv
      rw [addReaction_of_invalid _ _ _ _ _ _ hv1]
      exact h
  · intro key table hk
    by_cases hkey : key = channelId.1
    · rw [hkey] at hk
      cases hc : getOwn reactions channelId.1 with
      | none =>
        rw [removeReaction_absent saveOk trigger hc, hc] at hk
        exact Option.noConfusion hk
      | some table0 =>
        by_cases ht : truthyAt table0 trigger = true
        · rw [removeReaction_truthy saveOk hc ht] at hk
          by_cases hl : ((deleteOwn table0.own trigger).length == 0) = true
          · rw [if_pos hl, getOwn_deleteOwn_same] at hk
            exact Option.noConfusion hk
          · rw [if_neg hl, getOwn_setOwn_same] at hk
            simp only [Option.some.injEq] at hk
            rw [← hk]
            intro he
            apply hl
            have he2 : deleteOwn table0.own trigger = [] := he
            rw [he2]
            rfl
        · have ht2 : truthyAt table0 trigger = false := by simpa using ht
          rw [removeReaction_falsy saveOk hc ht2] at hk
          exact h _ table hk
    · have hsame : getOwn (removeReaction saveOk reactions channelId trigger).1 key =
          getOwn reactions key := by
        cases hc : getOwn reactions channelId.1 with
        | none => rw [removeReaction_absent saveOk trigger hc]
        | some table0 =>
          by_cases ht : truthyAt table0 trigger = true
          · rw [removeReaction_truthy saveOk hc ht]
            by_cases hl : ((deleteOwn table0.own trigger).length == 0) = true
            · rw [if_pos hl, getOwn_deleteOwn_other _ _ _ hkey]
            · rw [if_neg hl, getOwn_setOwn_other _ _ _ _ hkey]
          · have ht2 : truthyAt table0 trigger = false := by simpa using ht
            rw [removeReaction_falsy saveOk hc ht2]
      rw [hsame] at hk
      exact h key table hk
  · intro honly
    have hent := entriesOf_removeReaction saveOk reactions channelId trigger
    have hnil : entriesOf (removeReaction saveOk reactions channelId trigger).1 channelId = [] := by
      rw [hent]
      cases hc : getOwn reactions channelId.1 with
      | none => simp [entriesOf, hc, deleteOwn]
      | some table0 =>
        have hkeys := honly table0 hc
        simp only [entriesOf, hc]
        unfold deleteOwn
        rw [List.filter_eq_nil_iff]
        intro p hp
        have hm : p.1 ∈ table0.own.map Prod.fst := List.mem_map_of_mem Prod.fst hp
        rw [hkeys] at hm
        simp only [List.mem_singleton] at hm
        simp [hm]
    unfold getAllReactions
    unfold entriesOf at hnil
    cases hg : getOwn (removeReaction saveOk reactions channelId trigger).1 channelId.1 with
    | none => rfl
    | some t =>
      rw [hg] at hnil
      simp only at hnil
      simp [hnil]

/-! ## Channel isolation -/

theorem getOwn_addReaction_other (saveOk : Bool) (reactions : Reactions)
    (channelId : PlatformId) (trigger response matchType key : String)
    (hk : key ≠ channelId.1) :
    getOwn (addReaction saveOk reactions channelId trigger response matchType).1 key =
      getOwn reactions key := by
  by_cases hv : MATCH_TYPES.contains matchType = true
  · rw [addReaction_fst_of_valid _ _ _ _ _ _ hv, getOwn_setOwn_other _ _ _ _ hk]
  · have hv1 : MATCH_TYPES.contains matchType = false := by simpa using hv
    rw [addReaction_of_invalid _ _ _ _ _ _ hv1]

theorem getOwn_removeReaction_other (saveOk : Bool) (reactions : Reactions)
    (channelId : PlatformId) (trigger key : String) (hk : key ≠ channelId.1) :
    getOwn (removeReaction saveOk reactions channelId trigger).1 key = getOwn reactions key := by
  cases hc : getOwn reactions channelId.1 with
  | none => rw [removeReaction_absent saveOk trigger hc]
  | some table0 =>
    by_cases ht : truthyAt table0 trigger = true
    · rw [removeReaction_truthy saveOk hc ht]
      by_cases hl : ((deleteOwn table0.own trigger).length == 0) = true
      · rw [if_pos hl, getOwn_deleteOwn_other _ _ _ hk]
      · rw [if_neg hl, getOwn_setOwn_other _ _ _ _ hk]
    · have ht2 : truthyAt table0 trigger = false := by simpa using ht
      rw [removeReaction_falsy saveOk hc ht2]

theorem getOwn_recordOmikuji_other (saveOk : Bool) (today timeStr : String)
    (history : History) (channelId userId : PlatformId) (fortune key : String)
    (hk : key ≠ channelId.1) :
    getOwn (recordOmikuji saveOk today timeStr history channelId userId fortune).1 key =
      getOwn history key := by
  unfold recordOmikuji
  exact getOwn_setOwn_other _ _ _ _ hk

theorem reads_congr {r1 r2 : Reactions} (channelId : PlatformId)
    (h : getOwn r1 channelId.1 = getOwn r2 channelId.1) (m t : String) :
    getReaction r1 channelId m = getReaction r2 channelId m ∧
      hasReaction r1 channelId t = hasReaction r2 channelId t ∧
      getAllReactions r1 channelId = getAllReactions r2 channelId := by
  unfold getReaction hasReaction getAllReactions
  rw [h]
  exact ⟨rfl, rfl, rfl⟩

theorem ledger_reads_congr {h1 h2 : History} (channelId : PlatformId)
    (h : getOwn h1 channelId.1 = getOwn h2 channelId.1) (today : String) (u : PlatformId) :
    hasDrawnToday today h1 channelId u = hasDrawnToday today h2 channelId u ∧
      getChannelHistory today h1 channelId = getChannelHistory today h2 channelId := by
  unfold hasDrawnToday getChannelHistory
  rw [h]
  exact ⟨rfl, rfl⟩

/-- C17. Channel isolation: for channels `C1 ≠ C2`, an `addReaction` or a
`removeReaction` on `C1` leaves `getReaction`, `hasReaction` and
`getAllReactions` of `C2` unchanged, and a `recordOmikuji` on `C1` leaves
`hasDrawnToday` and `getChannelHistory` of `C2` unchanged, on whatever day they
are read. -/
theorem channel_isolation (saveOk : Bool) (C1 C2 : PlatformId) (hne : C1 ≠ C2)
    (reactions : Reactions) (trigger response matchType m t : String)
    (history : History) (today timeStr readDay fortune : String) (user u : PlatformId) :
    (getReaction (addReaction saveOk reactions C1 trigger response matchType).1 C2 m =
        getReaction reactions C2 m ∧
      hasReaction (addReaction saveOk reactions C1 trigger response matchType).1 C2 t =
        hasReaction reactions C2 t ∧
      getAllReactions (addReaction saveOk reactions C1 trigger response matchType).1 C2 =
        getAllReactions reactions C2) ∧
    (getReaction (removeReaction saveOk reactions C1 trigger).1 C2 m =
        getReaction reactions C2 m ∧
      hasReaction (removeReaction saveOk reactions C1 trigger).1 C2 t =
        hasReaction reactions C2 t ∧
      getAllReactions (removeReaction saveOk reactions C1 trigger).1 C2 =
        getAllReactions reactions C2) ∧
    (hasDrawnToday readDay (recordOmikuji saveOk today timeStr history C1 user fortune).1 C2 u =
        hasDrawnToday readDay history C2 u ∧
      getChannelHistory readDay (recordOmikuji saveOk today timeStr history C1 user fortune).1 C2 =
        getChannelHistory readDay history C2) := by
  have hk : C2.1 ≠ C1.1 := fun e => hne (Subtype.ext e.symm)
  exact ⟨reads_congr C2 (getOwn_addReaction_other _ _ _ _ _ _ _ hk) m t,
    reads_congr C2 (getOwn_removeReaction_other _ _ _ _ _ hk) m t,
    ledger_reads_congr C2 (getOwn_recordOmikuji_other _ _ _ _ _ _ _ _ hk) readDay u⟩

/-- Witness for `channel_isolation`: registering `ab` in channel `C2` leaves the
answers of channel `C1`, which holds `ab` and `abc`, as they were. -/
theorem channel_isolation_witness :
    channelC2 ≠ channelC1 ∧
      getReaction (addReaction true abThenAbc channelC2 "ab" "other" PARTIAL).1 channelC1 "abc" =
        getReaction abThenAbc channelC1 "abc" ∧
      getReaction abThenAbc channelC1 "abc" = some "R2" :=
  ⟨by decide,
    (channel_isolation true channelC2 channelC1 (by decide) abThenAbc "ab" "other" PARTIAL
      "abc" "ab" [] "2026-11-4" "09:30:00" "2026-11-4" "吉！" userU1 userU1).1.1,
    by decide⟩

/-! ## The empty trigger -/

theorem includes_empty (messageText : String) : includes messageText "" = true := by
  rw [includes_iff]
  exact ⟨[], messageText.data, by simp⟩

theorem partialMatch_of_empty_trigger (table : ChannelTable) (cfg : ReactionConfig)
    (m : String) (h1 : getOwn table.own "" = some cfg) (h2 : cfg.matchType = PARTIAL) :
    ∃ e, partialMatch table m = some e := by
  have hmem := getOwn_mem h1
  have hsome : (partialMatch table m).isSome = true := by
    unfold partialMatch
    rw [List.find?_isSome]
    exact ⟨("", cfg), hmem, by simp [h2, includes_empty]⟩
  exact Option.isSome_iff_exists.1 hsome

theorem getReaction_of_empty_trigger (reactions : Reactions) (channelId : PlatformId)
    (table : ChannelTable) (cfg : ReactionConfig) (m : String)
    (hc : getOwn reactions channelId.1 = some table)
    (h1 : getOwn table.own "" = some cfg) (h2 : cfg.matchType = PARTIAL) :
    ∃ r, getReaction reactions channelId m = some r := by
  cases hx : exactMatch table m with
  | some e => exact ⟨_, getReaction_exact hc hx⟩
  | none =>
    obtain ⟨e, he⟩ := partialMatch_of_empty_trigger table cfg m h1 h2
    rw [getReaction_second_pass hc hx, he]
    exact ⟨_, rfl⟩

theorem handleReactionRegister_withType (saveOk : Bool) (reactions : Reactions)
    (channelId : PlatformId) (g1 g2 g3 : String) :
    handleReactionRegister false saveOk reactions channelId (.withType g1 g2 g3) =
      ((addReaction saveOk reactions channelId (jsTrim g1) (jsTrim g3) (jsTrim g2)).1,
        match (addReaction saveOk reactions channelId (jsTrim g1) (jsTrim g3) (jsTrim g2)).2 with
        | .ok _ => RegisterReply.registered
        | .error .invalidMatchType => RegisterReply.invalidMatchType
        | .error .saveFailed => RegisterReply.failed) := by
  unfold handleReactionRegister
  simp only [Bool.false_eq_true, if_false]
  generalize addReaction saveOk reactions channelId (jsTrim g1) (jsTrim g3) (jsTrim g2) = res
  rcases res with ⟨r1, e | u⟩
  · cases e <;> rfl
  · rfl

/-- C18. `addReaction` accepts the empty trigger (its outcome is that of the
write alone), and `handleReactionRegister` passes it when the captured trigger
is blank; once a channel holds a Partial entry under the empty trigger,
`getReaction` returns a response for every message text. -/
theorem empty_trigger_answers_every_message (saveOk : Bool) (reactions : Reactions)
    (channelId : PlatformId) (response m : String) :
    (addReaction saveOk reactions channelId "" response PARTIAL).2 = saveReactions saveOk ∧
    (∃ r, getReaction (addReaction saveOk reactions channelId "" response PARTIAL).1
        channelId m = some r) ∧
    (∀ table cfg, getOwn reactions channelId.1 = some table →
      getOwn table.own "" = some cfg → cfg.matchType = PARTIAL →
      ∃ r, getReaction reactions channelId m = some r) ∧
    (∀ captured, jsTrim captured = "" →
      (handleReactionRegister false saveOk reactions channelId
          (.withType captured PARTIAL response)).1 =
        (addReaction saveOk reactions channelId "" (jsTrim response) PARTIAL).1) ∧
    jsTrim " " = "" ∧
    (handleReactionRegister false true [] channelId (.withType " " PARTIAL "pong")).2 =
      .registered := by
  refine ⟨addReaction_snd_of_valid _ _ _ _ _ _ contains_PARTIAL, ?_, ?_, ?_, by decide, ?_⟩
  · apply getReaction_of_empty_trigger _ _ _ ⟨response, PARTIAL⟩ m
    · rw [addReaction_fst_of_valid _ _ _ _ _ _ contains_PARTIAL]
      exact getOwn_setOwn_same _ _ _
    · exact getOwn_assignAt_same _ _ _ (Or.inl (by decide))
    · rfl
  · intro table cfg hc h1 h2
    exact getReaction_of_empty_trigger reactions channelId table cfg m hc h1 h2
  · intro captured hcap
    have htrim : jsTrim PARTIAL = PARTIAL := by decide
    rw [handleReactionRegister_withType, hcap, htrim]
  · have h1 : jsTrim " " = "" := by decide
    have h2 : jsTrim PARTIAL = PARTIAL := by decide
    rw [handleReactionRegister_withType, h1, h2,
      addReaction_snd_of_valid _ _ _ _ _ _ contains_PARTIAL]
    rfl

/-! ## Saving and loading -/

section RoundTrip

variable {α : Type}

theorem uniqueKeys_cons (p : String × α) (ps : Props α) :
    UniqueKeys (p :: ps) ↔ hasOwn ps p.1 = false ∧ UniqueKeys ps := by
  unfold UniqueKeys
  rw [List.map_cons, List.nodup_cons]
  have h := hasOwn_iff_mem_keys ps p.1
  constructor
  · rintro ⟨h1, h2⟩
    refine ⟨?_, h2⟩
    cases hh : hasOwn ps p.1
    · rfl
    · exact absurd (h.1 hh) h1
  · rintro ⟨h1, h2⟩
    refine ⟨fun hm => ?_, h2⟩
    rw [h.2 hm] at h1
    exact Bool.noConfusion h1

theorem mem_iff_getOwn (ps : Props α) (hu : UniqueKeys ps) (key : String) (v : α) :
    (key, v) ∈ ps ↔ getOwn ps key = some v := by
  induction ps with
  | nil => simp [getOwn_nil]
  | cons p ps ih =>
    obtain ⟨h1, h2⟩ := (uniqueKeys_cons p ps).1 hu
    rw [getOwn_cons, List.mem_cons]
    by_cases hk : p.1 = key
    · rw [if_pos hk]
      have hnone : getOwn ps key = none := by
        rw [← hk]
        exact (hasOwn_false_iff ps p.1).1 h1
      constructor
      · rintro (h | h)
        · rw [← h]
        · rw [(ih h2).1 h] at hnone
          exact Option.noConfusion hnone
      · intro h
        left
        simp only [Option.some.injEq] at h
        exact Prod.ext hk.symm h.symm
    · rw [if_neg hk]
      constructor
      · rintro (h | h)
        · exact absurd (congrArg Prod.fst h).symm hk
        · exact (ih h2).1 h
      · intro h
        exact Or.inr ((ih h2).2 h)

theorem uniqueKeys_of_perm {l1 l2 : Props α} (h : List.Perm l1 l2) (hu : UniqueKeys l2) :
    UniqueKeys l1 := by
  unfold UniqueKeys at hu ⊢
  exact ((h.map Prod.fst).nodup_iff).2 hu

theorem getOwn_of_perm {l1 l2 : Props α} (h : List.Perm l1 l2) (hu : UniqueKeys l2)
    (key : String) : getOwn l1 key = getOwn l2 key := by
  have hu1 := uniqueKeys_of_perm h hu
  cases h2 : getOwn l2 key with
  | some v =>
    exact (mem_iff_getOwn l1 hu1 key v).1 (h.mem_iff.2 ((mem_iff_getOwn l2 hu key v).2 h2))
  | none =>
    cases h1 : getOwn l1 key with
    | none => rfl
    | some v =>
      have := (mem_iff_getOwn l2 hu key v).1 (h.mem_iff.1 ((mem_iff_getOwn l1 hu1 key v).2 h1))
      rw [h2] at this
      exact Option.noConfusion this

theorem hasOwn_append (l1 l2 : Props α) (key : String) :
    hasOwn (l1 ++ l2) key = (hasOwn l1 key || hasOwn l2 key) := by
  simp [hasOwn, List.any_append]

theorem foldl_orderedUpsert (kvs acc : Props α) (hu : UniqueKeys kvs)
    (hd : ∀ p ∈ kvs, hasOwn acc p.1 = false) :
    kvs.foldl (fun acc p => orderedUpsert acc p.1 p.2) acc = acc ++ kvs := by
  induction kvs generalizing acc with
  | nil => simp
  | cons p kvs ih =>
    obtain ⟨h1, h2⟩ := (uniqueKeys_cons p kvs).1 hu
    have hp : hasOwn acc p.1 = false := hd p (List.mem_cons_self p kvs)
    rw [List.foldl_cons]
    have hstep : orderedUpsert acc p.1 p.2 = acc ++ [p] := by
      simp [orderedUpsert, hp]
    rw [hstep, ih _ h2]
    · simp
    · intro q hq
      rw [hasOwn_append, hd q (List.mem_cons_of_mem p hq)]
      have hne : ¬ p.1 = q.1 := by
        intro e
        have hm : q.1 ∈ kvs.map Prod.fst := List.mem_map_of_mem Prod.fst hq
        rw [← e] at hm
        rw [(hasOwn_iff_mem_keys kvs p.1).2 hm] at h1
        exact Bool.noConfusion h1
      simp [hasOwn, hne]

theorem foldl_setOwn_entriesOrder (kvs acc : Props α) :
    kvs.foldl (fun acc p => setOwn acc p.1 p.2) (entriesOrder acc) =
      entriesOrder (kvs.foldl (fun acc p => orderedUpsert acc p.1 p.2) acc) := by
  induction kvs generalizing acc with
  | nil => rfl
  | cons p kvs ih =>
    rw [List.foldl_cons, List.foldl_cons, setOwn_entriesOrder, ih]

/-- Parsing the members of an object with distinct keys gives them in
`Object.entries` order. -/
theorem parseObject_eq (kvs : Props α) (hu : UniqueKeys kvs) :
    parseObject kvs = entriesOrder kvs := by
  have h := foldl_setOwn_entriesOrder kvs ([] : Props α)
  rw [foldl_orderedUpsert kvs [] hu (fun p _ => rfl)] at h
  simpa [parseObject, entriesOrder, sortByIndex] using h

theorem getOwn_parseObject (kvs : Props α) (hu : UniqueKeys kvs) (key : String) :
    getOwn (parseObject kvs) key = getOwn kvs key := by
  rw [parseObject_eq kvs hu]
  exact getOwn_of_perm (entriesOrder_perm kvs) hu key

theorem uniqueKeys_parseObject (kvs : Props α) (hu : UniqueKeys kvs) :
    UniqueKeys (parseObject kvs) := by
  rw [parseObject_eq kvs hu]
  exact uniqueKeys_of_perm (entriesOrder_perm kvs) hu

end RoundTrip

section RoundTripValues

variable {α β : Type}

theorem getOwn_map_values (l : Props α) (h : α → β) (key : String) :
    getOwn (l.map (fun p => (p.1, h p.2))) key = (getOwn l key).map h := by
  induction l with
  | nil => rfl
  | cons p l ih =>
    rw [List.map_cons, getOwn_cons, getOwn_cons, ih]
    by_cases hk : p.1 = key <;> simp [hk]

theorem uniqueKeys_map_values (l : Props α) (h : α → β) (hu : UniqueKeys l) :
    UniqueKeys (l.map (fun p => (p.1, h p.2))) := by
  unfold UniqueKeys at hu ⊢
  rw [List.map_map]
  exact hu

theorem getOwn_filterMap_values (l : Props α) (g : α → Option β) (hu : UniqueKeys l)
    (key : String) :
    getOwn (l.filterMap (fun p => (g p.2).map (fun r => (p.1, r)))) key =
      (getOwn l key).bind g := by
  induction l with
  | nil => rfl
  | cons p l ih =>
    obtain ⟨h1, h2⟩ := (uniqueKeys_cons p l).1 hu
    rw [List.filterMap_cons, getOwn_cons]
    by_cases hk : p.1 = key
    · have hnone : getOwn l key = none := by
        rw [← hk]
        exact (hasOwn_false_iff l p.1).1 h1
      cases hg : g p.2 with
      | none => simp [hk, hg, ih h2, hnone]
      | some r => simp [hk, hg, getOwn_cons]
    · cases hg : g p.2 with
      | none => simp [hk, hg, ih h2]
      | some r => simp [hk, hg, getOwn_cons, ih h2]

theorem getOwn_filter_values (l : Props α) (q : α → Bool) (hu : UniqueKeys l)
    (key : String) :
    getOwn (l.filter (fun p => q p.2)) key = (getOwn l key).filter q := by
  induction l with
  | nil => rfl
  | cons p l ih =>
    obtain ⟨h1, h2⟩ := (uniqueKeys_cons p l).1 hu
    rw [List.filter_cons, getOwn_cons]
    by_cases hk : p.1 = key
    · have hnone : getOwn l key = none := by
        rw [← hk]
        exact (hasOwn_false_iff l p.1).1 h1
      by_cases hq : q p.2 = true
      · simp [hk, hq, getOwn_cons, Option.filter]
      · simp [hk, hq, ih h2, hnone, Option.filter]
    · by_cases hq : q p.2 = true
      · simp [hk, hq, getOwn_cons, ih h2]
      · simp [hk, hq, ih h2]

end RoundTripValues

theorem getOwn_loadReactions (reactions : Reactions) (hu : UniqueKeys reactions)
    (key : String) :
    getOwn (loadReactions (some (reactionsDocument reactions))) key =
      (getOwn reactions key).map (fun table => ⟨parseObject table.own, none⟩) := by
  unfold loadReactions reactionsDocument
  simp only [List.map_map]
  have hu2 : UniqueKeys (reactions.map
      ((fun p : String × Props ReactionConfig => (p.1, (⟨parseObject p.2, none⟩ : ChannelTable))) ∘
        fun p : String × ChannelTable => (p.1, p.2.own))) :=
    uniqueKeys_map_values reactions (fun table => (⟨parseObject table.own, none⟩ : ChannelTable)) hu
  rw [getOwn_parseObject _ hu2]
  exact getOwn_map_values reactions (fun table => (⟨parseObject table.own, none⟩ : ChannelTable)) key

theorem getOwn_loadHistory (today : String) (history : History) (hu : UniqueKeys history)
    (key : String) :
    getOwn (loadHistory today (some (historyDocument history))) key =
      (getOwn history key).bind (fun r => cleanupRecord today (parseRecord r)) := by
  unfold loadHistory historyDocument cleanupOldHistory
  have hu2 := uniqueKeys_map_values history parseRecord hu
  rw [getOwn_filterMap_values _ _ (uniqueKeys_parseObject _ hu2), getOwn_parseObject _ hu2,
    getOwn_map_values history parseRecord key]
  cases getOwn history key <;> rfl

/-- C14 (failing input). The registry in which `C1` has the admin `U1` is
written as a document in which `C1` is the empty object, the same document as
for the admin `U2`; loading it gives `C1` a plain object without members, on
which `isAdmin('C1', 'U1')`, true before, throws `TypeError`. -/
theorem saveAdminUsers_loses_members :
    adminsDocument [("C1", AdminValue.set ["U1"])] = [("C1", AdminJson.emptyObject)] ∧
      adminsDocument [("C1", AdminValue.set ["U2"])] =
        adminsDocument [("C1", AdminValue.set ["U1"])] ∧
      loadAdminUsers (some (adminsDocument [("C1", AdminValue.set ["U1"])])) =
        [("C1", AdminValue.parsed AdminJson.emptyObject)] ∧
      isAdmin [("C1", AdminValue.set ["U1"])] channelC1 "U1" = .ok true ∧
      isAdmin (loadAdminUsers (some (adminsDocument [("C1", AdminValue.set ["U1"])])))
        channelC1 "U1" = .error .typeError := by
  refine ⟨by decide, by decide, by decide, by decide, by decide⟩

/-- The ledger left by a draw on `2026-11-3` is still held on `2026-11-4`;
saved and loaded on that day it comes back empty, `loadHistory` cleaning up
what it reads. -/
theorem loadHistory_drops_stale_record :
    ledgerDayThree ≠ [] ∧
      loadHistory "2026-11-4" (some (historyDocument ledgerDayThree)) = [] := by
  refine ⟨by decide, by decide⟩

/-- For the trigger table and the draw ledger, objects having
distinct keys: loading the document saved from a trigger table gives a table
with the same channels, each with the same entries (and the default
prototype); loading on day `today` the document saved from a ledger gives the
records dated `today`, each with its log lines and user entries dated `today`,
and no record for a channel whose stored record bears another date. -/
theorem save_load_round_trip (reactions : Reactions) (history : History) (today : String)
    (hr : UniqueKeys reactions) (hrt : ∀ p ∈ reactions, UniqueKeys p.2.own)
    (hh : UniqueKeys history) (hhu : ∀ p ∈ history, UniqueKeys p.2.users) :
    (∀ c table, getOwn reactions c = some table →
      ∃ table1, getOwn (loadReactions (some (reactionsDocument reactions))) c = some table1 ∧
        table1.proto = none ∧ ∀ t, getOwn table1.own t = getOwn table.own t) ∧
    (∀ c, getOwn reactions c = none →
      getOwn (loadReactions (some (reactionsDocument reactions))) c = none) ∧
    (∀ c record, getOwn history c = some record → record.date = today →
      ∃ record1, getOwn (loadHistory today (some (historyDocument history))) c = some record1 ∧
        record1.date = today ∧
        record1.logs = record.logs.filter (fun log => log.date == today) ∧
        ∀ u, getOwn record1.users u =
          (getOwn record.users u).filter (fun e => e.date == today)) ∧
    (∀ c record, getOwn history c = some record → record.date ≠ today →
      getOwn (loadHistory today (some (historyDocument history))) c = none) ∧
    (∀ c, getOwn history c = none →
      getOwn (loadHistory today (some (historyDocument history))) c = none) := by
  refine ⟨?_, ?_, ?_, ?_, ?_⟩
  · intro c table hc
    refine ⟨⟨parseObject table.own, none⟩, ?_, rfl, ?_⟩
    · rw [getOwn_loadReactions reactions hr, hc]
      rfl
    · intro t
      exact getOwn_parseObject _ (hrt (c, table) (getOwn_mem hc)) t
  · intro c hc
    rw [getOwn_loadReactions reactions hr, hc]
    rfl
  · intro c record hc hd
    have hb : (record.date != today) = false := by simp [hd]
    refine ⟨{ date := record.date,
              users := (parseObject record.users).filter (fun u => u.2.date == today),
              logs := record.logs.filter (fun log => log.date == today) }, ?_, hd, rfl, ?_⟩
    · rw [getOwn_loadHistory today history hh, hc]
      simp only [Option.some_bind, cleanupRecord, parseRecord, hb, Bool.false_eq_true, if_false]
    · intro u
      have hu := uniqueKeys_parseObject _ (hhu (c, record) (getOwn_mem hc))
      rw [getOwn_filter_values _ (fun e : UserDraw => e.date == today) hu,
        getOwn_parseObject _ (hhu (c, record) (getOwn_mem hc))]
  · intro c record hc hd
    have hb : (record.date != today) = true := by simp [hd]
    rw [getOwn_loadHistory today history hh, hc]
    simp only [Option.some_bind, cleanupRecord, parseRecord, hb, if_true]
  · intro c hc
    rw [getOwn_loadHistory today history hh, hc]
    rfl

/-- Witness for `save_load_round_trip`: the table holding `ab` and `abc` and the
ledger of `2026-11-3`, loaded on `2026-11-3`. -/
theorem save_load_round_trip_witness :
    UniqueKeys abThenAbc ∧ UniqueKeys ledgerDayThree ∧
      (∀ c, getOwn abThenAbc c = none →
        getOwn (loadReactions (some (reactionsDocument abThenAbc))) c = none) ∧
      loadReactions (some (reactionsDocument abThenAbc)) = abThenAbc ∧
      loadHistory "2026-11-3" (some (historyDocument ledgerDayThree)) = ledgerDayThree :=
  have hr : UniqueKeys abThenAbc := by unfold UniqueKeys; decide
  have hrt : ∀ p ∈ abThenAbc, UniqueKeys p.2.own := by unfold UniqueKeys; decide
  have hh : UniqueKeys ledgerDayThree := by unfold UniqueKeys; decide
  have hhu : ∀ p ∈ ledgerDayThree, UniqueKeys p.2.users := by unfold UniqueKeys; decide
  ⟨hr, hh, (save_load_round_trip abThenAbc ledgerDayThree "2026-11-3" hr hrt hh hhu).2.1,
    by decide, by decide⟩

/-! ## Removal, registration and reads across days -/

/-- C3 (amended). After `removeReaction(C, T)`, whatever its outcome, the
channel holds no entry for `T`, and `getReaction(C, T)` is the response of the
first entry, in the order of `Object.entries`, among the Partial entries left
in the channel whose trigger is a substring of `T`, and `null` when there is
none. -/
theorem getReaction_after_removeReaction (saveOk : Bool) (reactions : Reactions)
    (channelId : PlatformId) (trigger : String) :
    (∀ table, getOwn (removeReaction saveOk reactions channelId trigger).1 channelId.1 =
        some table → getOwn table.own trigger = none) ∧
    getReaction (removeReaction saveOk reactions channelId trigger).1 channelId trigger =
      firstPartial (entriesOf (removeReaction saveOk reactions channelId trigger).1 channelId)
        trigger ∧
    (getReaction (removeReaction saveOk reactions channelId trigger).1 channelId trigger = none ↔
      ∀ table, getOwn (removeReaction saveOk reactions channelId trigger).1 channelId.1 =
          some table →
        ∀ p ∈ table.own,
          ¬ (p.2.matchType = PARTIAL ∧ List.IsInfix p.1.data trigger.data)) ∧
    (∀ r, getReaction (removeReaction saveOk reactions channelId trigger).1 channelId trigger =
        some r →
      ∃ table p, getOwn (removeReaction saveOk reactions channelId trigger).1 channelId.1 =
          some table ∧ p ∈ table.own ∧ p.2.response = r ∧ p.1 ≠ trigger ∧
        p.2.matchType = PARTIAL ∧ List.IsInfix p.1.data trigger.data) := by
  obtain ⟨h1, h2, h3⟩ := removeReaction_then_getReaction saveOk reactions channelId trigger
  refine ⟨h1, ?_, h2, h3⟩
  apply getReaction_eq_firstPartial
  intro p hp hx
  cases hc : getOwn (removeReaction saveOk reactions channelId trigger).1 channelId.1 with
  | none => simp [entriesOf, hc] at hp
  | some table =>
    have hp2 : p ∈ table.own := by simpa [entriesOf, hc] using hp
    exact (getOwn_none_iff _ _).1 (h1 table hc) p hp2 hx.2

/-- C6 (amended). `addReaction` rejects with the invalid-match-type error
exactly when `matchType` is neither mode token, and then the whole table is
unchanged. With a valid token it rejects only if the write of the file fails;
and whether the write fails or not, for a trigger other than `__proto__` the
channel then holds the new entry under the trigger, at the place `Object.entries`
gives it, its other entries being as before. It never rejects because the
trigger already exists. -/
theorem addReaction_outcome (saveOk : Bool) (reactions : Reactions)
    (channelId : PlatformId) (trigger response matchType : String) :
    ((addReaction saveOk reactions channelId trigger response matchType).2 =
        .error .invalidMatchType ↔ (matchType ≠ PARTIAL ∧ matchType ≠ EXACT)) ∧
    ((addReaction saveOk reactions channelId trigger response matchType).2 =
        .error .invalidMatchType →
      (addReaction saveOk reactions channelId trigger response matchType).1 = reactions) ∧
    ((addReaction saveOk reactions channelId trigger response matchType).2 =
        .error .saveFailed ↔ ((matchType = PARTIAL ∨ matchType = EXACT) ∧ saveOk = false)) ∧
    ((addReaction saveOk reactions channelId trigger response matchType).2 = .ok () ↔
      ((matchType = PARTIAL ∨ matchType = EXACT) ∧ saveOk = true)) ∧
    (addReaction saveOk reactions channelId trigger response matchType).1 =
      (addReaction true reactions channelId trigger response matchType).1 ∧
    ((matchType = PARTIAL ∨ matchType = EXACT) → trigger ≠ "__proto__" →
      entriesOf (addReaction saveOk reactions channelId trigger response matchType).1
          channelId =
        setOwn (entriesOf reactions channelId) trigger ⟨response, matchType⟩ ∧
      getOwn (entriesOf (addReaction saveOk reactions channelId trigger response matchType).1
          channelId) trigger = some ⟨response, matchType⟩ ∧
      ∀ t, t ≠ trigger →
        getOwn (entriesOf (addReaction saveOk reactions channelId trigger response matchType).1
            channelId) t = getOwn (entriesOf reactions channelId) t) := by
  obtain ⟨h1, h2, h3, h4, h5⟩ :=
    addReaction_result saveOk reactions channelId trigger response matchType
  refine ⟨h1, h2, h3, h4, h5, ?_⟩
  intro hv ht
  have hent := entriesOf_addReaction saveOk reactions channelId trigger response matchType
    ((contains_iff matchType).2 hv) ht
  refine ⟨hent, ?_, ?_⟩
  · rw [hent]
    exact getOwn_setOwn_same _ _ _
  · intro t hne
    rw [hent]
    exact getOwn_setOwn_other _ _ _ _ hne

/-- C10 (failing input). The ledger holds for `C1` a record dated `2026-11-5`,
left by a draw of `U1`; `U2` draws with the clock showing `2026-11-4`. Read on
`2026-11-5`, `hasDrawnToday(C1, U2)` is false but `getChannelHistory(C1)` is
not empty: it returns the record's log, the line of `2026-11-4` included. -/
theorem getChannelHistory_after_other_day_draw :
    (getOwn ledgerDayFive channelC1.1).map (fun r => r.date) = some "2026-11-5" ∧
      hasDrawnToday "2026-11-5" ledgerDayFiveThenFour channelC1 userU2 = false ∧
      getChannelHistory "2026-11-5" ledgerDayFiveThenFour channelC1 =
        [⟨"2026-11-5", "10:00:00", "U1", "吉！"⟩,
         ⟨"2026-11-4", "09:30:00", "U2", "大吉！！！"⟩] ∧
      getChannelHistory "2026-11-5" ledgerDayFiveThenFour channelC1 ≠ [] := by
  refine ⟨by decide, by decide, by decide, by decide⟩

end SlackBot
